import Mathlib

/-!
Verification development for the codemode-rs repository.

This file gives a shallow embedding, in Lean, of the parts of the codemode-rs
source that the checked properties are about:

* `src/sandbox.rs`: the sandboxed execution bridge — shared bridge state,
  async-completion application, the driver loop of `resolve_value`, the
  stub installer (`inject_tools` / `ensure_namespace`), the native stub
  (`tool_callback`), and JSON ↔ engine value marshalling
  (`json_to_v8` / `v8_value_to_json`);
* `src/ts_interface.rs`: identifier sanitisation, tool access paths, and the
  interface-text generator with its name-keyed cache;
* `src/client.rs`: caller entries and `register_async_source` /
  `register_sync_source`.

External collaborators (the v8 engine, serde_json, tokio) are modelled by
explicit data: JSON values are a mutually inductive tree mirroring
`serde_json::Value`, engine values are a similar tree (restricted, for
numbers, to the integral fragment of IEEE binary64, with the binary64
rounding of integers modelled exactly), interior mutability becomes explicit
state passing, and the engine thread of `execute` becomes a step function
over event lists.
-/

namespace CodemodeRs

/-! ## JSON values (serde_json::Value) -/

/-- Model of `serde_json::Number`: `u (n)` is the `PosInt` (u64)
representation, `i (z)` the `NegInt` (negative i64) representation, and
`d (z)` a `Float` (f64) holding the exact integer value `z`.  The model is
restricted to the integral fragment of binary64; this fragment contains every
number the round-trip pipeline of `sandbox.rs` can produce from an integral
input.  Mirroring serde, equality of numbers distinguishes representations:
`Float(1.0)` is not equal to `PosInt(1)`. -/
inductive JNum where
  | u (n : Nat)
  | i (z : Int)
  | d (z : Int)
deriving DecidableEq, Repr

mutual
/-- Model of `serde_json::Value`. -/
inductive Json where
  | null
  | bool (b : Bool)
  | num (n : JNum)
  | str (s : String)
  | arr (elts : JsonList)
  | obj (fields : JsonFields)
deriving Repr

/-- Spine of a `serde_json::Value::Array` (a `Vec<Value>`). -/
inductive JsonList where
  | nil
  | cons (hd : Json) (tl : JsonList)
deriving Repr

/-- Spine of a `serde_json::Value::Object` (a `Map<String, Value>`; the
default serde map is ordered by key, and this model keeps the fields as an
ordered association list). -/
inductive JsonFields where
  | nil
  | cons (key : String) (val : Json) (tl : JsonFields)
deriving Repr
end

mutual
/-- Decidable equality on the JSON model (the `deriving` handler does not
support this mutually inductive family, so the decision procedure is spelled
out). -/
def Json.decEq : (a b : Json) → Decidable (a = b)
  | .null, .null => isTrue rfl
  | .null, .bool _ => isFalse (fun h => Json.noConfusion h)
  | .null, .num _ => isFalse (fun h => Json.noConfusion h)
  | .null, .str _ => isFalse (fun h => Json.noConfusion h)
  | .null, .arr _ => isFalse (fun h => Json.noConfusion h)
  | .null, .obj _ => isFalse (fun h => Json.noConfusion h)
  | .bool _, .null => isFalse (fun h => Json.noConfusion h)
  | .bool a, .bool b =>
      match decEq a b with
      | isTrue h => isTrue (h ▸ rfl)
      | isFalse n => isFalse (fun h => n (Json.bool.inj h))
  | .bool _, .num _ => isFalse (fun h => Json.noConfusion h)
  | .bool _, .str _ => isFalse (fun h => Json.noConfusion h)
  | .bool _, .arr _ => isFalse (fun h => Json.noConfusion h)
  | .bool _, .obj _ => isFalse (fun h => Json.noConfusion h)
  | .num _, .null => isFalse (fun h => Json.noConfusion h)
  | .num _, .bool _ => isFalse (fun h => Json.noConfusion h)
  | .num a, .num b =>
      match decEq a b with
      | isTrue h => isTrue (h ▸ rfl)
      | isFalse n => isFalse (fun h => n (Json.num.inj h))
  | .num _, .str _ => isFalse (fun h => Json.noConfusion h)
  | .num _, .arr _ => isFalse (fun h => Json.noConfusion h)
  | .num _, .obj _ => isFalse (fun h => Json.noConfusion h)
  | .str _, .null => isFalse (fun h => Json.noConfusion h)
  | .str _, .bool _ => isFalse (fun h => Json.noConfusion h)
  | .str _, .num _ => isFalse (fun h => Json.noConfusion h)
  | .str a, .str b =>
      match decEq a b with
      | isTrue h => isTrue (h ▸ rfl)
      | isFalse n => isFalse (fun h => n (Json.str.inj h))
  | .str _, .arr _ => isFalse (fun h => Json.noConfusion h)
  | .str _, .obj _ => isFalse (fun h => Json.noConfusion h)
  | .arr _, .null => isFalse (fun h => Json.noConfusion h)
  | .arr _, .bool _ => isFalse (fun h => Json.noConfusion h)
  | .arr _, .num _ => isFalse (fun h => Json.noConfusion h)
  | .arr _, .str _ => isFalse (fun h => Json.noConfusion h)
  | .arr a, .arr b =>
      match JsonList.decEq a b with
      | isTrue h => isTrue (h ▸ rfl)
      | isFalse n => isFalse (fun h => n (Json.arr.inj h))
  | .arr _, .obj _ => isFalse (fun h => Json.noConfusion h)
  | .obj _, .null => isFalse (fun h => Json.noConfusion h)
  | .obj _, .bool _ => isFalse (fun h => Json.noConfusion h)
  | .obj _, .num _ => isFalse (fun h => Json.noConfusion h)
  | .obj _, .str _ => isFalse (fun h => Json.noConfusion h)
  | .obj _, .arr _ => isFalse (fun h => Json.noConfusion h)
  | .obj a, .obj b =>
      match JsonFields.decEq a b with
      | isTrue h => isTrue (h ▸ rfl)
      | isFalse n => isFalse (fun h => n (Json.obj.inj h))

/-- Decidable equality for array spines. -/
def JsonList.decEq : (a b : JsonList) → Decidable (a = b)
  | .nil, .nil => isTrue rfl
  | .nil, .cons _ _ => isFalse (fun h => JsonList.noConfusion h)
  | .cons _ _, .nil => isFalse (fun h => JsonList.noConfusion h)
  | .cons x xs, .cons y ys =>
      match Json.decEq x y with
      | isFalse n => isFalse (fun h => n (JsonList.cons.inj h).1)
      | isTrue h1 =>
          match JsonList.decEq xs ys with
          | isTrue h2 => isTrue (h1 ▸ h2 ▸ rfl)
          | isFalse n => isFalse (fun h => n (JsonList.cons.inj h).2)

/-- Decidable equality for object spines. -/
def JsonFields.decEq : (a b : JsonFields) → Decidable (a = b)
  | .nil, .nil => isTrue rfl
  | .nil, .cons _ _ _ => isFalse (fun h => JsonFields.noConfusion h)
  | .cons _ _ _, .nil => isFalse (fun h => JsonFields.noConfusion h)
  | .cons k v m, .cons k2 v2 m2 =>
      match decEq k k2 with
      | isFalse n => isFalse (fun h => n (JsonFields.cons.inj h).1)
      | isTrue h1 =>
          match Json.decEq v v2 with
          | isFalse n => isFalse (fun h => n (JsonFields.cons.inj h).2.1)
          | isTrue h2 =>
              match JsonFields.decEq m m2 with
              | isTrue h3 => isTrue (h1 ▸ h2 ▸ h3 ▸ rfl)
              | isFalse n => isFalse (fun h => n (JsonFields.cons.inj h).2.2)
end

instance : DecidableEq Json := Json.decEq

instance : DecidableEq JsonList := JsonList.decEq

instance : DecidableEq JsonFields := JsonFields.decEq

/-- View of an array spine as a list. -/
def JsonList.toList : JsonList → List Json
  | .nil => []
  | .cons x xs => x :: xs.toList

/-- View of an object spine as an association list. -/
def JsonFields.toList : JsonFields → List (String × Json)
  | .nil => []
  | .cons k v m => (k, v) :: m.toList

/-- Build an array spine from a list. -/
def JsonList.ofList : List Json → JsonList
  | [] => .nil
  | x :: xs => .cons x (JsonList.ofList xs)

/-- Build an object spine from an association list. -/
def JsonFields.ofList : List (String × Json) → JsonFields
  | [] => .nil
  | (k, v) :: m => .cons k v (JsonFields.ofList m)

/-- Model of `Value::get(key)` on objects (`None` on non-objects and absent
keys), as used by the schema formatter in `ts_interface.rs`. -/
def Json.get (j : Json) (key : String) : Option Json :=
  match j with
  | .obj m => lookupFields m key
  | _ => none
where
  lookupFields : JsonFields → String → Option Json
    | .nil, _ => none
    | .cons k v m, key => if k = key then some v else lookupFields m key

/-- Model of `Value::as_str`. -/
def Json.as_str : Json → Option String
  | .str s => some s
  | _ => none

/-- Model of `Value::as_array`. -/
def Json.as_array : Json → Option JsonList
  | .arr xs => some xs
  | _ => none

/-- Model of `Value::as_object`. -/
def Json.as_object : Json → Option JsonFields
  | .obj m => some m
  | _ => none

mutual
/-- Size of a JSON tree; used as an upper bound on recursion depth when the
schema formatter is given fuel. -/
def Json.size : Json → Nat
  | .null => 1
  | .bool _ => 1
  | .num _ => 1
  | .str _ => 1
  | .arr xs => 1 + xs.size
  | .obj m => 1 + m.size

/-- Size of an array spine. -/
def JsonList.size : JsonList → Nat
  | .nil => 1
  | .cons x xs => 1 + x.size + xs.size

/-- Size of an object spine. -/
def JsonFields.size : JsonFields → Nat
  | .nil => 1
  | .cons _ v m => 1 + v.size + m.size
end

/-! ## Binary64 rounding of integers

`serde_json` numbers travel through v8 as IEEE binary64 doubles.  For an
integer input, the value the engine holds is the round-to-nearest-even
binary64 value of the integer.  The rounding is modelled exactly on
integers: keep the top 53 bits of the magnitude and round the rest to
nearest, ties to even. -/

/-- Fuel-driven base-2 logarithm (floor); the fuel argument makes the
recursion structural so that the kernel can evaluate it on concrete inputs.
With fuel at least `n`, `log2fuel fuel n` is the floor of the base-2
logarithm of `n`. -/
def log2fuel : Nat → Nat → Nat
  | 0, _ => 0
  | fuel + 1, n => if 2 ≤ n then log2fuel fuel (n / 2) + 1 else 0

/-- Floor of the base-2 logarithm. -/
def natLog2 (n : Nat) : Nat := log2fuel n n

/-- Round a natural number to the nearest binary64-representable value
(round to nearest, ties to even).  Magnitudes up to `2 ^ 53` are exactly
representable and returned unchanged. -/
def roundB64mag (n : Nat) : Nat :=
  if n ≤ 2 ^ 53 then n
  else
    let e := natLog2 n - 52
    let q := n / 2 ^ e
    let r := n % 2 ^ e
    let q2 :=
      if r * 2 < 2 ^ e then q
      else if r * 2 > 2 ^ e then q + 1
      else if q % 2 = 0 then q else q + 1
    q2 * 2 ^ e

/-- Round an integer to the nearest binary64-representable value. -/
def roundB64 (z : Int) : Int :=
  if z < 0 then -(roundB64mag z.natAbs : Int) else (roundB64mag z.natAbs : Int)

/-- Numeric value denoted by a `serde_json` number representation. -/
def JNum.toInt : JNum → Int
  | .u n => n
  | .i z => z
  | .d z => z

/-! ## Engine (v8) values

A v8 value as seen by the bridge: `undefined`, `null`, booleans, numbers
(doubles; the model covers the integral fragment), strings, arrays and
objects.  Functions never appear in marshalled data. -/

mutual
/-- Model of a v8 value reachable by the marshalling code. -/
inductive V8Value where
  | undefined
  | vnull
  | vbool (b : Bool)
  | vnum (z : Int)
  | vstr (s : String)
  | varr (elts : V8List)
  | vobj (fields : V8Fields)
deriving Repr

/-- Spine of a v8 array. -/
inductive V8List where
  | nil
  | cons (hd : V8Value) (tl : V8List)
deriving Repr

/-- Spine of a v8 object (own enumerable properties in order). -/
inductive V8Fields where
  | nil
  | cons (key : String) (val : V8Value) (tl : V8Fields)
deriving Repr
end

/-- The serde number representation produced when `serde_json::from_str`
parses the decimal literal of the integer `z`: a `u64` when it fits, else a
negative `i64` when it fits, else the `f64` nearest to the literal. -/
def serdeNumOfInt (z : Int) : JNum :=
  if 0 ≤ z ∧ z < 2 ^ 64 then .u z.toNat
  else if -(2 ^ 63) ≤ z ∧ z < 0 then .i z
  else .d (roundB64 z)

/-! ### The engine stringifier on numbers

`JSON.stringify` prints a double using the ECMAScript `Number::toString`
algorithm, which v8 implements with a shortest-round-trip (Grisu) search:
the decimal with the fewest significant digits that reparses to exactly
this double, and the nearest such decimal to the double.  For an integral
double of value `n` this decimal is an integer too, computed below by an
explicit search over the rounding interval of the double.  For magnitudes
at and above `10 ^ 21` the engine switches to exponent notation over the
same shortest digits. -/

/-- Whether the decimal value `w` reparses to the double whose rounding
interval is `(lo, hi)`: strictly inside the interval, or on an endpoint
when `incl` holds (the significand of the double is even — round to
nearest, ties to even). -/
def admissibleDec (lo hi : Nat) (incl : Bool) (w : Nat) : Bool :=
  (decide (lo < w) && decide (w < hi)) || (incl && (w == lo || w == hi))

/-- The admissible multiple of `p` nearest to `n`, when one exists.  The
admissible multiples form a contiguous range and `lo ≤ n ≤ hi`, so only
the two multiples bracketing `n` need inspection; of two equally near
candidates the lower is taken (no result here depends on that
tie-break). -/
def nearestAdmissibleMultiple (n lo hi : Nat) (incl : Bool) (p : Nat) :
    Option Nat :=
  let wf := n / p * p
  let wc := wf + p
  match admissibleDec lo hi incl wf, admissibleDec lo hi incl wc with
  | true, true => some (if n - wf ≤ wc - n then wf else wc)
  | true, false => some wf
  | false, true => some wc
  | false, false => none

/-- Search downwards for the admissible decimal divisible by the highest
power of ten — the shortest admissible decimal.  Level 0 always succeeds
with `n` itself (every integer is a multiple of one). -/
def searchShortest (n lo hi : Nat) (incl : Bool) : Nat → Nat
  | 0 => n
  | t + 1 =>
      match nearestAdmissibleMultiple n lo hi incl (10 ^ (t + 1)) with
      | some w => w
      | none => searchShortest n lo hi incl t

/-- Numeric value of the shortest round-tripping decimal for the integral
double of value `n`.  Below `2 ^ 54` the rounding interval of the double
is narrower than `(n - 1, n + 1]` with any endpoint odd, so the exact
value is the shortest decimal and is returned directly; from `2 ^ 54` on,
the interval spans several integers and the search applies, with the
binade (hence the interval half-widths, halved on the low side at an exact
power of two) read off the binary logarithm. -/
def v8ShortestDec (n : Nat) : Nat :=
  if natLog2 n ≤ 53 then n
  else
    let b := natLog2 n
    let j := b - 52
    let q := n / 2 ^ j
    let halfHi := 2 ^ (j - 1)
    let halfLo := if n = 2 ^ b then 2 ^ (j - 2) else 2 ^ (j - 1)
    searchShortest n (n - halfLo) (n + halfHi) (q % 2 == 0) 21

/-- Signed shortest round-tripping decimal of an integral double. -/
def shortestIntDec (z : Int) : Int :=
  if z < 0 then -(v8ShortestDec z.natAbs : Int) else (v8ShortestDec z.natAbs : Int)

/-- The serde number obtained by stringifying the integral double `z` in
the engine and reparsing with serde: below `10 ^ 21` the engine prints the
shortest round-tripping decimal as a plain integer literal, which serde
reads as u64 / i64 / f64 by range; from `10 ^ 21` on the engine prints
exponent notation, which serde always reads as an f64 — and the shortest
decimal reparses to the same double `z`. -/
def v8NumToSerde (z : Int) : JNum :=
  if z.natAbs < 10 ^ 21 then serdeNumOfInt (shortestIntDec z)
  else .d z

mutual
/-- Composite effect, on the JSON tree, of `json_to_v8` in `sandbox.rs`:
`serde_json::to_string` prints the value, `v8::String::new` wraps the text
and `v8::json::parse` parses it inside the engine.  The net effect on the
tree is structural, except that every number becomes the binary64 rounding
of its value.  (String printing and reparsing is exact for valid UTF-8, and
the ordered serde map reparses to the same ordered object.) -/
def jsonToV8core : Json → V8Value
  | .null => .vnull
  | .bool b => .vbool b
  | .num n => .vnum (roundB64 n.toInt)
  | .str s => .vstr s
  | .arr xs => .varr (jsonListToV8 xs)
  | .obj m => .vobj (jsonFieldsToV8 m)

/-- Elementwise `jsonToV8core` on array spines. -/
def jsonListToV8 : JsonList → V8List
  | .nil => .nil
  | .cons x xs => .cons (jsonToV8core x) (jsonListToV8 xs)

/-- Elementwise `jsonToV8core` on object spines. -/
def jsonFieldsToV8 : JsonFields → V8Fields
  | .nil => .nil
  | .cons k v m => .cons k (jsonToV8core v) (jsonFieldsToV8 m)
end

/-- Model of `json_to_v8` (`sandbox.rs` lines 480–487).  The `Option` mirrors
the fallible signature (`serde_json::to_string`, `v8::String::new` and
`v8::json::parse` each return an `Option`/`Result`); for the tree values of
this model none of the three steps can fail, so the result is always `some`. -/
def json_to_v8 (value : Json) : Option V8Value :=
  some (jsonToV8core value)

/-- Whether a v8 value is `undefined` (`JSON.stringify` omits object
properties whose value is `undefined`). -/
def V8Value.isUndef : V8Value → Bool
  | .undefined => true
  | _ => false

mutual
/-- Composite effect of `v8::json::stringify` followed by
`serde_json::from_str` on a non-null, non-undefined v8 value
(`v8_value_to_json`, `sandbox.rs` lines 462–474): structural, except that an
engine double is printed as its shortest round-tripping decimal and comes
back as the serde representation of that literal (`v8NumToSerde`),
`undefined` inside an array stringifies as `null`, and an object property
holding `undefined` is omitted. -/
def v8ToJsonCore : V8Value → Json
  | .undefined => .null
  | .vnull => .null
  | .vbool b => .bool b
  | .vnum z => .num (v8NumToSerde z)
  | .vstr s => .str s
  | .varr xs => .arr (v8ListToJson xs)
  | .vobj m => .obj (v8FieldsToJson m)

/-- Elementwise `v8ToJsonCore` on array spines. -/
def v8ListToJson : V8List → JsonList
  | .nil => .nil
  | .cons x xs => .cons (v8ToJsonCore x) (v8ListToJson xs)

/-- Elementwise `v8ToJsonCore` on object spines, dropping `undefined`
properties as `JSON.stringify` does. -/
def v8FieldsToJson : V8Fields → JsonFields
  | .nil => .nil
  | .cons k v m =>
      if v.isUndef then v8FieldsToJson m
      else .cons k (v8ToJsonCore v) (v8FieldsToJson m)
end

/-- The error type of `sandbox.rs` (`SandboxError`). -/
inductive SandboxError where
  | v8 (message : String)
  | tool (message : String)
  | serialization (message : String)
deriving DecidableEq, Repr

/-- Model of `v8_value_to_json` (`sandbox.rs` lines 462–474): `undefined` and
`null` map to JSON `null` directly; any other value is stringified by the
engine and reparsed by serde.  A stringifier failure would be a
`serialization` error; for the tree values of this model the stringifier
always succeeds. -/
def v8_value_to_json (value : V8Value) : Except SandboxError Json :=
  match value with
  | .undefined => .ok .null
  | .vnull => .ok .null
  | v => .ok (v8ToJsonCore v)

/-- Round trip of the two marshalling directions: JSON value into the engine
(`json_to_v8`) and back out (`v8_value_to_json`). -/
def json_round_trip (value : Json) : Option Json :=
  (json_to_v8 value).bind (fun ev => (v8_value_to_json ev).toOption)

/-- A serde number representation that survives the trip through the engine
unchanged: an integer representation (`u64`, or negative `i64`) of
magnitude at most `2 ^ 53`.  In that range the value is exactly
representable in binary64 and is its own shortest round-tripping decimal;
a larger integer, even an exactly representable one such as `2 ^ 55`, can
be stringified to a different nearby integer (the shortest decimal), and
float representations come back under an integer representation, which
serde equality distinguishes. -/
def JNum.exact : JNum → Bool
  | .u n => decide (n ≤ 2 ^ 53)
  | .i z => decide (z < 0) && decide (-(2 ^ 53) ≤ z)
  | .d _ => false

mutual
/-- Every number in the JSON tree is `JNum.exact`. -/
def Json.numsExact : Json → Bool
  | .null => true
  | .bool _ => true
  | .num n => n.exact
  | .str _ => true
  | .arr xs => xs.numsExact
  | .obj m => m.numsExact

/-- Every number in an array spine is `JNum.exact`. -/
def JsonList.numsExact : JsonList → Bool
  | .nil => true
  | .cons x xs => x.numsExact && xs.numsExact

/-- Every number in an object spine is `JNum.exact`. -/
def JsonFields.numsExact : JsonFields → Bool
  | .nil => true
  | .cons _ v m => v.numsExact && m.numsExact
end

/-! ## String helpers

Core `String.replace` / `String.splitOn` / `String.contains` are not
kernel-reducible, so the handful of string operations the source uses are
modelled directly on character lists. -/

/-- Model of Rust `str::contains(char)`. -/
def strContainsChar (s : String) (c : Char) : Bool :=
  s.data.any (fun x => x = c)

/-- Worker for `splitOnChar`. -/
def splitOnCharGo (c : Char) : List Char → List Char → List String
  | [], acc => [String.mk acc.reverse]
  | x :: xs, acc =>
      if x = c then String.mk acc.reverse :: splitOnCharGo c xs []
      else splitOnCharGo c xs (x :: acc)

/-- Model of Rust `str::split(char)` (collected): splits at every occurrence,
keeping empty pieces; the result always has at least one element. -/
def splitOnChar (c : Char) (s : String) : List String :=
  splitOnCharGo c s.data []

/-! ## Tool descriptors (tool.rs) and identifier sanitisation (ts_interface.rs) -/

/-- Model of `Tool` (`src/tool.rs`): name, description, tags, input/output
JSON schemas, and the async flag. -/
structure Tool where
  name : String
  description : String
  tags : List String
  inputs : Json
  outputs : Json
  is_async : Bool
deriving DecidableEq, Repr

/-- Worker for `sanitize_identifier` (`ts_interface.rs` lines 146–164):
the fold over `name.chars().enumerate()`. -/
def sanitizeGo : Nat → List Char → List Char
  | _, [] => []
  | idx, c :: cs =>
      (if c.isAlphanum || c = '_' then
        (if idx == 0 && c.isDigit then ['_', c] else [c])
      else ['_']) ++ sanitizeGo (idx + 1) cs

/-- Model of `sanitize_identifier` (`ts_interface.rs` lines 146–164). -/
def sanitize_identifier (name : String) : String :=
  let sanitized := sanitizeGo 0 name.data
  if sanitized.isEmpty then "_" else String.mk sanitized

/-- Per-character replacement used by the specification wording:
characters outside `[A-Za-z0-9_]` become an underscore. -/
def replChar (c : Char) : Char :=
  if c.isAlphanum || c = '_' then c else '_'

/-- Modelled from the spec wording of identifier sanitisation (spec §6), for
comparison with the implementation: map every character outside
`[A-Za-z0-9_]` to an underscore, put an underscore in front of a leading
ASCII digit, and send the empty string to a single underscore. -/
def sanitize_spec (name : String) : String :=
  match name.data with
  | [] => "_"
  | c :: cs =>
      let mapped := (c :: cs).map replChar
      if c.isDigit then String.mk ('_' :: mapped) else String.mk mapped

/-- Model of `tool_access_path` (`ts_interface.rs` lines 128–143). -/
def tool_access_path (tool : Tool) : String :=
  if strContainsChar tool.name '.' then
    let parts := splitOnChar '.' tool.name
    let manual_name := parts.headD "manual"
    let tool_parts := parts.tail
    let sanitized_manual := sanitize_identifier manual_name
    let tool_name := String.intercalate "_" (tool_parts.map sanitize_identifier)
    sanitized_manual ++ "." ++ tool_name
  else
    sanitize_identifier tool.name

/-! ## Caller entries and registration (client.rs) -/

/-- Model of `CallerKind` (`src/client.rs`): the provider is identified by an
opaque id (the `Arc<dyn ...ToolCaller>` handle). -/
inductive CallerKind where
  | async (providerId : Nat)
  | sync (providerId : Nat)
deriving DecidableEq, Repr

/-- Model of `ToolCallerEntry` (`src/client.rs` lines 173–178). -/
structure ToolCallerEntry where
  tool : Tool
  raw_name : String
  caller : CallerKind
deriving DecidableEq, Repr

/-- Association-list lookup with string keys (first match), the lookup of the
`HashMap<String, _>` model. -/
def alookup {α : Type} : List (String × α) → String → Option α
  | [], _ => none
  | (k, v) :: rest, key => if k = key then some v else alookup rest key

/-- `HashMap::insert` model: the new binding shadows any previous binding
with the same key under `alookup` (silent overwrite). -/
def mapInsert {α : Type} (m : List (String × α)) (k : String) (v : α) :
    List (String × α) :=
  (k, v) :: m

/-- The callers table of `CodeModeClient`. -/
abbrev CallersMap : Type := List (String × ToolCallerEntry)

/-- Model of `apply_prefix` (`client.rs` lines 190–192). -/
def applyPfx (pfx : String) (name : String) : String :=
  pfx ++ "." ++ name

/-- Model of `register_async_tool` (`client.rs` lines 56–72): force
`is_async`, key the entry by the (possibly prefixed) descriptor name. -/
def register_async_tool (m : CallersMap) (tool : Tool) (raw_name : String)
    (providerId : Nat) : CallersMap :=
  let tool := { tool with is_async := true }
  mapInsert m tool.name ⟨tool, raw_name, .async providerId⟩

/-- Model of `register_async_source` (`client.rs` lines 74–90): for each tool
listed by the source, remember the original name as `raw_name`, rename the
descriptor to `prefix.originalName`, and register it. -/
def register_async_source (m : CallersMap) (tools : List Tool) (pfx : String)
    (providerId : Nat) : CallersMap :=
  tools.foldl
    (fun m t => register_async_tool m { t with name := applyPfx pfx t.name } t.name providerId)
    m

/-- Model of `register_sync_tool` (`client.rs` lines 92–108). -/
def register_sync_tool (m : CallersMap) (tool : Tool) (raw_name : String)
    (providerId : Nat) : CallersMap :=
  let tool := { tool with is_async := false }
  mapInsert m tool.name ⟨tool, raw_name, .sync providerId⟩

/-- Model of `register_sync_source` (`client.rs` lines 110–126). -/
def register_sync_source (m : CallersMap) (tools : List Tool) (pfx : String)
    (providerId : Nat) : CallersMap :=
  tools.foldl
    (fun m t => register_sync_tool m { t with name := applyPfx pfx t.name } t.name providerId)
    m

/-! ## The stub installer (sandbox.rs: inject_tools / ensure_namespace)

The script context is modelled as a heap of objects: an address-indexed list
of objects, each an ordered association list of properties.  A v8 function
is an object (carrying the `ToolCallbackState` its `External` data points
to).  Values that are not objects (numbers, strings, booleans, `null`) are
collapsed to `prim`; property reads of absent keys give `undefined`, as
`v8::Object::get` does. -/

/-- A value stored in a script-object property. -/
inductive JsVal where
  | undefined
  | prim
  | ref (addr : Nat)
deriving DecidableEq, Repr

/-- Model of `v8::Value::is_object`: object references (including function
objects) are objects; primitives and `undefined` are not. -/
def JsVal.is_object : JsVal → Bool
  | .ref _ => true
  | _ => false

/-- Model of `ToolCallbackState` (`sandbox.rs` lines 181–189).  The runtime
handle and the raw pointer to the shared bridge state are engine-side
plumbing and are omitted; callers are identified by provider id. -/
structure ToolCallbackState where
  tool_name : String
  raw_name : String
  async_caller : Option Nat
  sync_caller : Option Nat
  is_async : Bool
deriving DecidableEq, Repr

/-- An object on the script heap: its ordered properties, and — when the
object is an installed native stub — the callback state it carries. -/
structure HeapObj where
  fields : List (String × JsVal)
  fn : Option ToolCallbackState
deriving DecidableEq, Repr

/-- The script-object heap; addresses are list indices, allocation appends. -/
abbrev Heap : Type := List HeapObj

/-- A fresh plain object (`v8::Object::new`). -/
def HeapObj.empty : HeapObj := ⟨[], none⟩

/-- Property write: replace the binding if the key exists, else append it. -/
def setFieldList (fields : List (String × JsVal)) (k : String) (v : JsVal) :
    List (String × JsVal) :=
  match fields with
  | [] => [(k, v)]
  | (k2, v2) :: rest =>
      if k2 = k then (k2, v) :: rest else (k2, v2) :: setFieldList rest k v

/-- Model of `v8::Object::get`: the property value, or `undefined` when the
key is absent (or the address dangles, which never happens in a run). -/
def heapGetField (h : Heap) (a : Nat) (k : String) : JsVal :=
  match h[a]? with
  | some o => (alookup o.fields k).getD .undefined
  | none => .undefined

/-- Model of `v8::Object::set` on the object at address `a`. -/
def heapSetField (h : Heap) (a : Nat) (k : String) (v : JsVal) : Heap :=
  h.modify (fun o => { o with fields := setFieldList o.fields k v }) a

/-- Allocate a fresh plain object, returning the new heap and its address. -/
def allocObj (h : Heap) : Heap × Nat :=
  (h ++ [HeapObj.empty], h.length)

/-- Allocate a native stub function object carrying `state`. -/
def allocFnObj (h : Heap) (state : ToolCallbackState) : Heap × Nat :=
  (h ++ [⟨[], some state⟩], h.length)

/-- Model of `ensure_namespace` (`sandbox.rs` lines 443–460): read the key on
the parent; when the existing binding is an object, descend into it;
otherwise (absent key — which reads as `undefined` — or a non-object
binding) create a fresh object and bind it at the key.  `v8::String::new`
and `to_object` cannot fail on the values of this model, so the `Except`
error branch of the signature is never taken. -/
def ensure_namespace (h : Heap) (parent : Nat) (name : String) :
    Except SandboxError (Heap × Nat) :=
  match heapGetField h parent name with
  | .ref a => .ok (h, a)
  | _ =>
      let alloc := allocObj h
      .ok (heapSetField alloc.1 parent name (.ref alloc.2), alloc.2)

/-- The namespace walk of `inject_tools` (`sandbox.rs` lines 138–141): fold
`ensure_namespace` over the intermediate path segments, propagating errors
as the `?` operator does. -/
def walk_namespaces (h : Heap) (target : Nat) : List String →
    Except SandboxError (Heap × Nat)
  | [] => .ok (h, target)
  | part :: rest =>
      match ensure_namespace h target part with
      | .ok r => walk_namespaces r.1 r.2 rest
      | .error e => .error e

/-- Model of the per-tool body of `inject_tools` (`sandbox.rs` lines
131–176): compute the access path, walk the namespaces to the target object,
resolve the caller entry (capturing the async or sync caller and the
`raw_name`, defaulting to the registered name when no entry exists), build
the callback state, and bind a native stub carrying it under the last path
segment. -/
def inject_tool (h : Heap) (global : Nat) (tool : Tool)
    (callers : CallersMap) : Except SandboxError (Heap × ToolCallbackState) :=
  let access_path := tool_access_path tool
  let parts := splitOnChar '.' access_path
  match walk_namespaces h global parts.dropLast with
  | .error e => .error e
  | .ok (h2, target) =>
      let caller_entry := alookup callers tool.name
      let async_caller :=
        match caller_entry with
        | some { caller := .async a, .. } => some a
        | _ => none
      let sync_caller :=
        match caller_entry with
        | some { caller := .sync s, .. } => some s
        | _ => none
      let raw_name := (caller_entry.map ToolCallerEntry.raw_name).getD tool.name
      let tool_state : ToolCallbackState :=
        { tool_name := tool.name
          raw_name := raw_name
          async_caller := async_caller
          sync_caller := sync_caller
          is_async := tool.is_async }
      let fn_key := parts.getLast?.getD ""
      let alloc := allocFnObj h2 tool_state
      .ok (heapSetField alloc.1 target fn_key (.ref alloc.2), tool_state)

/-- Dispatch decision of the native stub `tool_callback` (`sandbox.rs` lines
359–441): an async stub with an async caller dispatches
`(state.raw_name, parsed_args)` to the provider (via the spawned task); a
sync stub with a sync caller dispatches the same pair in place.  A missing
caller throws an engine error and nothing is dispatched (`none`). -/
def tool_callback_dispatch (state : ToolCallbackState) (parsed_args : Json) :
    Option (String × Json) :=
  if state.is_async then
    match state.async_caller with
    | some _ => some (state.raw_name, parsed_args)
    | none => none
  else
    match state.sync_caller with
    | some _ => some (state.raw_name, parsed_args)
    | none => none

/-! ## Shared bridge state and completions (sandbox.rs)

The engine thread of one `execute` call is modelled as a sequence of events:
async stub invocations (`tool_callback`, lines 382–418) and completion
applications (`apply_completion`, lines 301–335).  The `v8::Global`
promise-resolver handles are opaque engine objects, modelled by a `Nat`
handle; a resolver is paired with the call id under which it is stored.
Settling a resolver is an observable `Action`. -/

/-- Model of `Result<Value, String>`, the payload of a `Completion`. -/
inductive CallResult where
  | ok (value : Json)
  | err (message : String)
deriving DecidableEq, Repr

/-- Model of `Completion` (`sandbox.rs` lines 235–238). -/
structure Completion where
  id : Nat
  result : CallResult
deriving DecidableEq, Repr

/-- Model of `AsyncSharedState` (`sandbox.rs` lines 213–233): the atomic id
allocator (starting at 1), the pending counter, and the resolver map.  The
`sender` endpoint carries no state and is omitted. -/
structure AsyncSharedState where
  next_id : Nat
  pending : Nat
  resolvers : List (Nat × Nat)
deriving DecidableEq, Repr

/-- The shared state at the start of `execute`. -/
def AsyncSharedState.init : AsyncSharedState := ⟨1, 0, []⟩

/-- Association-list lookup with `Nat` keys (`HashMap::get`). -/
def nlookup : List (Nat × Nat) → Nat → Option Nat
  | [], _ => none
  | (k, v) :: rest, key => if k = key then some v else nlookup rest key

/-- Model of `HashMap::remove`: the removed value (if any) and the remaining
entries. -/
def removeKey : List (Nat × Nat) → Nat → Option Nat × List (Nat × Nat)
  | [], _ => (none, [])
  | (k, v) :: rest, key =>
      if k = key then (some v, rest)
      else
        let r := removeKey rest key
        (r.1, (k, v) :: r.2)

/-- An observable settlement of a promise resolver on the engine thread:
the call id it was stored under, the resolver handle, and the outcome. -/
inductive Action where
  | resolve (id : Nat) (resolver : Nat) (value : V8Value)
  | reject (id : Nat) (resolver : Nat) (message : String)

/-- The call id an action settles. -/
def Action.cid : Action → Nat
  | .resolve id _ _ => id
  | .reject id _ _ => id

/-- Number of settle actions for a given call id. -/
def settleCount (acts : List Action) (id : Nat) : Nat :=
  acts.countP (fun a => a.cid == id)

/-- Model of `apply_completion` (`sandbox.rs` lines 301–335): look up and
remove the resolver stored under `completion.id` (absent: drop the
completion silently); decrement `pending` (Lean `Nat` subtraction is the
saturating subtraction of `usize::saturating_sub`); then settle the
resolver: on `ok`, marshal the JSON value and `resolve`, or `reject` with
"failed to serialize tool result" when marshalling fails; on `err`,
`reject` with the carried message.  Marshalling is passed in as `marshal`
(the concrete instance is `json_to_v8`). -/
def apply_completion (marshal : Json → Option V8Value) (s : AsyncSharedState)
    (completion : Completion) : AsyncSharedState × List Action :=
  match removeKey s.resolvers completion.id with
  | (none, _) => (s, [])
  | (some resolver, rest) =>
      let s2 : AsyncSharedState :=
        { s with resolvers := rest, pending := s.pending - 1 }
      match completion.result with
      | .ok value =>
          match marshal value with
          | some ev => (s2, [.resolve completion.id resolver ev])
          | none =>
              (s2, [.reject completion.id resolver "failed to serialize tool result"])
      | .err message => (s2, [.reject completion.id resolver message])

/-- State effect of the async branch of `tool_callback` (`sandbox.rs` lines
382–398): allocate the next id, store the fresh resolver under it and bump
`pending`; returns the allocated id (sent to the spawned task). -/
def tool_call_register (s : AsyncSharedState) (resolver : Nat) :
    AsyncSharedState × Nat :=
  let id := s.next_id
  ({ next_id := id + 1
     pending := s.pending + 1
     resolvers := (id, resolver) :: s.resolvers }, id)

/-- An engine-thread event touching the shared bridge state. -/
inductive BridgeEv where
  | call (resolver : Nat)
  | complete (c : Completion)

/-- One engine-thread step on the shared bridge state. -/
def bridge_step (marshal : Json → Option V8Value) (s : AsyncSharedState)
    (ev : BridgeEv) : AsyncSharedState × List Action :=
  match ev with
  | .call r => ((tool_call_register s r).1, [])
  | .complete c => apply_completion marshal s c

/-- Run a sequence of engine-thread events from a given state, accumulating
the emitted actions. -/
def bridge_run_from (marshal : Json → Option V8Value) :
    AsyncSharedState → List Action → List BridgeEv →
      AsyncSharedState × List Action
  | s, acts, [] => (s, acts)
  | s, acts, ev :: evs =>
      let r := bridge_step marshal s ev
      bridge_run_from marshal r.1 (acts ++ r.2) evs

/-- Run a sequence of engine-thread events from the initial state. -/
def bridge_run (marshal : Json → Option V8Value) (evs : List BridgeEv) :
    AsyncSharedState × List Action :=
  bridge_run_from marshal .init [] evs

/-- Number of async stub invocations in an event sequence. -/
def numCalls (evs : List BridgeEv) : Nat :=
  evs.countP (fun ev => match ev with | .call _ => true | .complete _ => false)

/-! ## The driver loop (sandbox.rs: resolve_value)

`resolve_value` (lines 240–285) alternates completion drains, microtask
checkpoints, promise-state inspection, a timeout check, and a bounded
(≈ 5 ms) blocking wait on the completion channel.  The loop is modelled by
iteration index `k`, with environment oracles: the state of the top-level
promise as observed after the microtask checkpoint of iteration `k`, the
elapsed wall-clock milliseconds at the timeout check of iteration `k`, and
the batch of completions received (drained, or returned by the bounded
wait) during iteration `k`.  The channel never disconnects during a run —
the original sender lives in `SandboxState.shared` for the whole call — so
the "execution incomplete" exit is unreachable and not modelled.  `fuel`
bounds the number of iterations inspected; `none` means the loop is still
running after `fuel` iterations. -/

/-- State of the top-level promise at a loop iteration. -/
inductive PromiseSt where
  | pending
  | fulfilled (v : V8Value)
  | rejected (message : String)

/-- What `resolve_value` returns (before the final JSON conversion). -/
inductive LoopResult where
  | ok (v : V8Value)
  | err (e : SandboxError)

/-- Apply a batch of received completions in channel order
(`drain_completions`, lines 287–299, plus the completion returned by
`recv_timeout`). -/
def applyBatch (marshal : Json → Option V8Value) :
    AsyncSharedState → List Action → List Completion →
      AsyncSharedState × List Action
  | s, acts, [] => (s, acts)
  | s, acts, c :: cs =>
      let r := apply_completion marshal s c
      applyBatch marshal r.1 (acts ++ r.2) cs

/-- The driver loop of `resolve_value` (lines 255–282), for a value that is
a promise: drain and apply completions, run microtasks (after which the
promise is in state `prom k`), return the settled result if settled,
return the v8 error "execution timeout" once `elapsed k` exceeds
`timeout_ms`, otherwise wait (≤ one 5 ms poll interval) and iterate. -/
def resolve_value_loop (marshal : Json → Option V8Value)
    (prom : Nat → PromiseSt) (elapsed : Nat → Nat)
    (arrivals : Nat → List Completion) (timeout_ms : Nat) :
    Nat → Nat → AsyncSharedState → List Action →
      Option (LoopResult × AsyncSharedState × List Action)
  | 0, _, _, _ => none
  | fuel + 1, k, s, acts =>
      let d := applyBatch marshal s acts (arrivals k)
      match prom k with
      | .fulfilled v => some (.ok v, d.1, d.2)
      | .rejected message => some (.err (.tool message), d.1, d.2)
      | .pending =>
          if timeout_ms < elapsed k then
            some (.err (.v8 "execution timeout"), d.1, d.2)
          else
            resolve_value_loop marshal prom elapsed arrivals timeout_ms fuel
              (k + 1) d.1 d.2

/-! ## serde_json::from_str (the fragment the stub uses)

`tool_callback` parses the stringified argument with
`serde_json::from_str`.  The parser is modelled on the JSON fragment
without float literals and without `\u` string escapes (the concrete
strings this development evaluates are inside the fragment); outside the
fragment the model answers `none`.  Recursion is made structural with a
fuel argument (one unit per nesting step; the top-level call supplies the
input length plus one, which is ample). -/

/-- JSON whitespace. -/
def isJsonWs (c : Char) : Bool :=
  c = ' ' || c = '\n' || c = '\t' || c = '\r'

/-- Drop leading JSON whitespace. -/
def skipWs : List Char → List Char
  | [] => []
  | c :: cs => if isJsonWs c then skipWs cs else c :: cs

/-- Parse the body of a string literal (after the opening quote), handling
the escapes of the modelled fragment. -/
def parseStringGo : List Char → List Char → Option (String × List Char)
  | _, [] => none
  | acc, '"' :: rest => some (String.mk acc.reverse, rest)
  | acc, '\\' :: e :: rest =>
      if e = '"' then parseStringGo ('"' :: acc) rest
      else if e = '\\' then parseStringGo ('\\' :: acc) rest
      else if e = '/' then parseStringGo ('/' :: acc) rest
      else if e = 'n' then parseStringGo ('\n' :: acc) rest
      else if e = 't' then parseStringGo ('\t' :: acc) rest
      else if e = 'r' then parseStringGo ('\r' :: acc) rest
      else if e = 'b' then parseStringGo ('\x08' :: acc) rest
      else if e = 'f' then parseStringGo ('\x0c' :: acc) rest
      else none
  | acc, c :: rest => parseStringGo (c :: acc) rest

/-- Split the longest leading run of ASCII digits. -/
def takeDigits : List Char → List Char × List Char
  | [] => ([], [])
  | c :: cs =>
      if c.isDigit then
        let r := takeDigits cs
        (c :: r.1, r.2)
      else ([], c :: cs)

/-- Numeric value of a digit run. -/
def digitsVal (ds : List Char) : Nat :=
  ds.foldl (fun acc c => acc * 10 + (c.toNat - '0'.toNat)) 0

/-- The serde number representation of an integer literal: a `u64` when it
fits, else a negative `i64` when it fits, else the nearest `f64`. -/
def serdeNumOfLiteral (neg : Bool) (n : Nat) : JNum :=
  if neg && decide (0 < n) then
    if n ≤ 2 ^ 63 then .i (-(n : Int)) else .d (roundB64 (-(n : Int)))
  else
    if n < 2 ^ 64 then .u n else .d (roundB64 (n : Int))

/-- Parse an integer literal (the number fragment of the model). -/
def parseNum (input : List Char) : Option (Json × List Char) :=
  match input with
  | '-' :: rest =>
      let r := takeDigits rest
      match r.1 with
      | [] => none
      | _ => some (.num (serdeNumOfLiteral true (digitsVal r.1)), r.2)
  | _ =>
      let r := takeDigits input
      match r.1 with
      | [] => none
      | _ => some (.num (serdeNumOfLiteral false (digitsVal r.1)), r.2)

mutual
/-- Parse one JSON value. -/
def parseVal : Nat → List Char → Option (Json × List Char)
  | 0, _ => none
  | fuel + 1, input =>
      match skipWs input with
      | 'n' :: 'u' :: 'l' :: 'l' :: rest => some (.null, rest)
      | 't' :: 'r' :: 'u' :: 'e' :: rest => some (.bool true, rest)
      | 'f' :: 'a' :: 'l' :: 's' :: 'e' :: rest => some (.bool false, rest)
      | '"' :: rest =>
          match parseStringGo [] rest with
          | some (s, rest2) => some (.str s, rest2)
          | none => none
      | '[' :: rest =>
          match skipWs rest with
          | ']' :: rest2 => some (.arr .nil, rest2)
          | other =>
              match parseVal fuel other with
              | some (v, rest2) =>
                  match parseArrRest fuel rest2 with
                  | some (tl, rest3) => some (.arr (.cons v tl), rest3)
                  | none => none
              | none => none
      | '\x7b' :: rest =>
          match skipWs rest with
          | '\x7d' :: rest2 => some (.obj .nil, rest2)
          | other =>
              match parseMember fuel other with
              | some (k, v, rest2) =>
                  match parseObjRest fuel rest2 with
                  | some (tl, rest3) => some (.obj (.cons k v tl), rest3)
                  | none => none
              | none => none
      | other => parseNum other

/-- Parse the continuation of an array after one element: either a comma and
another element, or the closing bracket. -/
def parseArrRest : Nat → List Char → Option (JsonList × List Char)
  | 0, _ => none
  | fuel + 1, input =>
      match skipWs input with
      | ',' :: rest =>
          match parseVal fuel rest with
          | some (v, rest2) =>
              match parseArrRest fuel rest2 with
              | some (tl, rest3) => some (.cons v tl, rest3)
              | none => none
          | none => none
      | ']' :: rest => some (.nil, rest)
      | _ => none

/-- Parse one `"key": value` object member. -/
def parseMember : Nat → List Char → Option (String × Json × List Char)
  | 0, _ => none
  | fuel + 1, input =>
      match skipWs input with
      | '"' :: rest =>
          match parseStringGo [] rest with
          | some (k, rest2) =>
              match skipWs rest2 with
              | ':' :: rest3 =>
                  match parseVal fuel rest3 with
                  | some (v, rest4) => some (k, v, rest4)
                  | none => none
              | _ => none
          | none => none
      | _ => none

/-- Parse the continuation of an object after one member. -/
def parseObjRest : Nat → List Char → Option (JsonFields × List Char)
  | 0, _ => none
  | fuel + 1, input =>
      match skipWs input with
      | ',' :: rest =>
          match parseMember fuel rest with
          | some (k, v, rest2) =>
              match parseObjRest fuel rest2 with
              | some (tl, rest3) => some (.cons k v tl, rest3)
              | none => none
          | none => none
      | '\x7d' :: rest => some (.nil, rest)
      | _ => none
end

/-- Model of `serde_json::from_str::<Value>` on the fragment described
above: parse one value and require only whitespace to follow. -/
def serde_from_str (s : String) : Option Json :=
  match parseVal (s.data.length + 1) s.data with
  | some (v, rest) => if (skipWs rest).isEmpty then some v else none
  | none => none

/-- Argument handling of `tool_callback` (`sandbox.rs` lines 375–379): the
engine stringifier is applied to argument 0 (its result is this function's
input — `none` models a stringify failure); a stringify failure falls back
to the literal text `"{}"`; the text is then parsed by serde and a parse
failure falls back to JSON `null`. -/
def parsed_args (stringify_result : Option String) : Json :=
  let args_json := stringify_result.getD "\x7b\x7d"
  (serde_from_str args_json).getD .null

/-- Invariant of the shared bridge state along an engine-thread run, with
`acts` the settle actions emitted so far: resolver keys are distinct,
allocated (at least 1 and below `next_id`); `pending` counts the live
resolvers; every allocated id is either live or settled; and a call id has
been settled exactly once precisely when it was allocated and its resolver
is no longer present. -/
structure BridgeInv (s : AsyncSharedState) (acts : List Action) : Prop where
  nodup : (s.resolvers.map Prod.fst).Nodup
  bounds : ∀ p ∈ s.resolvers, 1 ≤ p.1 ∧ p.1 < s.next_id
  one_le : 1 ≤ s.next_id
  pending_eq : s.pending = s.resolvers.length
  calls_eq : s.resolvers.length + acts.length + 1 = s.next_id
  settles : ∀ id, settleCount acts id =
    if 1 ≤ id ∧ id < s.next_id ∧ nlookup s.resolvers id = none then 1 else 0

/-! ## The interface-text generator (ts_interface.rs)

The formatter is pure; the recursion over nested schemas is made structural
with a fuel argument (the callers supply `Json.size` of the schema, which
bounds the recursion depth). -/

/-- Lowercase hexadecimal digit. -/
def hexDigit (n : Nat) : Char :=
  if n < 10 then Char.ofNat ('0'.toNat + n) else Char.ofNat ('a'.toNat + n - 10)

/-- Escapes of `serde_json::to_string` on a string. -/
def jsonEscChar (c : Char) : List Char :=
  if c = '"' then ['\\', '"']
  else if c = '\\' then ['\\', '\\']
  else if c = '\n' then ['\\', 'n']
  else if c = '\t' then ['\\', 't']
  else if c = '\r' then ['\\', 'r']
  else if c = '\x08' then ['\\', 'b']
  else if c = '\x0c' then ['\\', 'f']
  else if c.toNat < 32 then
    ['\\', 'u', '0', '0', hexDigit (c.toNat / 16), hexDigit (c.toNat % 16)]
  else [c]

/-- Model of `serde_json::to_string` applied to a string value (the enum
branch of the formatter quotes string literals this way). -/
def jsonQuote (s : String) : String :=
  "\"" ++ String.mk (s.data.map jsonEscChar).flatten ++ "\""

/-- Decimal literal of a serde number, as `Number::to_string` prints it
(floats carry a decimal point). -/
def JNum.literal : JNum → String
  | .u n => toString n
  | .i z => toString z
  | .d z => toString z ++ ".0"

/-- Worker for `escape_comment`: the non-overlapping left-to-right
replacement of `*/` by `*\/`. -/
def escGo : List Char → List Char
  | [] => []
  | '*' :: '/' :: rest => '*' :: '\\' :: '/' :: escGo rest
  | c :: rest => c :: escGo rest

/-- Model of `escape_comment` (`ts_interface.rs` lines 166–168). -/
def escape_comment (text : String) : String :=
  String.mk ((escGo text.data).map (fun c => if c = '\n' then ' ' else c))

/-- Model of `map_json_type_to_ts` (`ts_interface.rs` lines 378–388). -/
def map_json_type_to_ts (schema_type : String) : String :=
  if schema_type = "string" then "string"
  else if schema_type = "number" then "number"
  else if schema_type = "integer" then "number"
  else if schema_type = "boolean" then "boolean"
  else if schema_type = "null" then "null"
  else if schema_type = "object" then "object"
  else if schema_type = "array" then "any[]"
  else "any"

/-- The literal of one `enum` entry (empty for entries of composite type,
which the formatter filters out). -/
def enumLiteral : Json → String
  | .str s => jsonQuote s
  | .num n => n.literal
  | .bool b => if b then "true" else "false"
  | .null => "null"
  | _ => ""

/-- The `" | "`-joined union of an `enum` array, used by both
`primitive_schema_to_typescript` and `json_schema_to_typescript_type`. -/
def enumUnion (values : JsonList) : String :=
  String.intercalate " | "
    ((values.toList.map enumLiteral).filter (fun s => !s.isEmpty))

/-- The `required` name set of a schema. -/
def requiredSet (schema : Json) : List String :=
  match (schema.get "required").bind Json.as_array with
  | some arr => arr.toList.filterMap Json.as_str
  | none => []

/-- Model of `json_schema_to_typescript_type` (`ts_interface.rs` lines
310–376); the extra fuel argument makes the schema recursion structural. -/
def json_schema_to_typescript_type : Nat → Json → String
  | 0, _ => "any"
  | fuel + 1, schema =>
      match schema.get "enum" with
      | some (.arr values) => enumUnion values
      | _ =>
          match (schema.get "type").bind Json.as_str with
          | some "object" =>
              match (schema.get "properties").bind Json.as_object with
              | none => "\x7b [key: string]: any \x7d"
              | some props =>
                  let required_set := requiredSet schema
                  let prop_strs := props.toList.map (fun p =>
                    let is_required := required_set.any (fun req => req = p.1)
                    let optional := if is_required then "" else "?"
                    let prop_type := json_schema_to_typescript_type fuel p.2
                    p.1 ++ optional ++ ": " ++ prop_type)
                  "\x7b " ++ String.intercalate "; " prop_strs ++ " \x7d"
          | some "array" =>
              let item_type :=
                match schema.get "items" with
                | some (.arr arr) =>
                    String.intercalate " | "
                      (arr.toList.map (json_schema_to_typescript_type fuel))
                | some item => json_schema_to_typescript_type fuel item
                | none => "any"
              "(" ++ item_type ++ ")[]"
          | some "string" => "string"
          | some "number" => "number"
          | some "integer" => "number"
          | some "boolean" => "boolean"
          | some "null" => "null"
          | some other => map_json_type_to_ts other
          | none => "any"

/-- Model of `json_schema_to_object_content` (`ts_interface.rs` lines
170–208). -/
def json_schema_to_object_content (schema : Json) : String :=
  if ((schema.get "type").bind Json.as_str) ≠ some "object" then
    "    [key: string]: any;"
  else
    let properties := (schema.get "properties").bind Json.as_object
    let required_set := requiredSet schema
    let ls : List String :=
      match properties with
      | some props =>
          (props.toList.map (fun p =>
            let is_required := required_set.any (fun req => req = p.1)
            let optional_marker := if is_required then "" else "?"
            let description := ((p.2.get "description").bind Json.as_str).getD ""
            let ts_type := json_schema_to_typescript_type p.2.size p.2
            (if !description.isEmpty then
              ["    /** " ++ escape_comment description ++ " */"]
            else []) ++
            ["    " ++ p.1 ++ optional_marker ++ ": " ++ ts_type ++ ";"])).flatten
      | none => []
    if ls.isEmpty then "    [key: string]: any;"
    else String.intercalate "\n" ls

/-- Model of `object_schema_to_typescript` (`ts_interface.rs` lines
236–269). -/
def object_schema_to_typescript (schema : Json) (type_name : String) : String :=
  match (schema.get "properties").bind Json.as_object with
  | none => "interface " ++ type_name ++ " \x7b\n  [key: string]: any;\n\x7d"
  | some props =>
      let required_set := requiredSet schema
      let props_str := String.intercalate "\n" (props.toList.map (fun p =>
        let is_required := required_set.any (fun req => req = p.1)
        let optional := if is_required then "" else "?"
        let prop_type := json_schema_to_typescript_type p.2.size p.2
        let description :=
          match (p.2.get "description").bind Json.as_str with
          | some desc => "  /** " ++ escape_comment desc ++ " */\n"
          | none => ""
        description ++ "  " ++ p.1 ++ optional ++ ": " ++ prop_type ++ ";"))
      "interface " ++ type_name ++ " \x7b\n" ++ props_str ++ "\n\x7d"

/-- Model of `array_schema_to_typescript` (`ts_interface.rs` lines
271–288). -/
def array_schema_to_typescript (schema : Json) (type_name : String) : String :=
  match schema.get "items" with
  | none => "type " ++ type_name ++ " = any[];"
  | some items =>
      let item_type :=
        match items with
        | .arr arr =>
            String.intercalate " | "
              (arr.toList.map (fun it => json_schema_to_typescript_type it.size it))
        | item => json_schema_to_typescript_type item.size item
      "type " ++ type_name ++ " = (" ++ item_type ++ ")[];"

/-- Model of `primitive_schema_to_typescript` (`ts_interface.rs` lines
290–308). -/
def primitive_schema_to_typescript (schema : Json) (type_name : String)
    (base_type : String) : String :=
  match schema.get "enum" with
  | some (.arr values) => "type " ++ type_name ++ " = " ++ enumUnion values ++ ";"
  | _ => "type " ++ type_name ++ " = " ++ base_type ++ ";"

/-- Model of `json_schema_to_typescript` (`ts_interface.rs` lines
210–234). -/
def json_schema_to_typescript (schema : Json) (type_name : String) : String :=
  match (schema.get "type").bind Json.as_str with
  | some "object" => object_schema_to_typescript schema type_name
  | some "array" => array_schema_to_typescript schema type_name
  | some "string" => primitive_schema_to_typescript schema type_name "string"
  | some "number" => primitive_schema_to_typescript schema type_name "number"
  | some "integer" => primitive_schema_to_typescript schema type_name "number"
  | some "boolean" => primitive_schema_to_typescript schema type_name "boolean"
  | some "null" => "type " ++ type_name ++ " = null;"
  | _ =>
      match schema.get "type" with
      | some (.arr types) =>
          "type " ++ type_name ++ " = " ++
            String.intercalate " | "
              ((types.toList.filterMap Json.as_str).map map_json_type_to_ts) ++ ";"
      | _ => "type " ++ type_name ++ " = any;"

/-- The pure interface-text generation of `tool_to_typescript_interface`
(`ts_interface.rs` lines 51–122): everything the cache-miss path computes
before the insert. -/
def interfaceText (tool : Tool) : String :=
  let content_access : String × String :=
    if strContainsChar tool.name '.' then
      let parts := splitOnChar '.' tool.name
      let manual_name := parts.headD "manual"
      let tool_parts := parts.tail
      let sanitized_manual := sanitize_identifier manual_name
      let tool_name := String.intercalate "_" (tool_parts.map sanitize_identifier)
      let access_pattern := sanitized_manual ++ "." ++ tool_name
      let input_content := json_schema_to_object_content tool.inputs
      let output_content := json_schema_to_object_content tool.outputs
      let output_interface :=
        if tool.is_async then
          "  type " ++ tool_name ++ "Output = Promise<" ++ tool_name ++
            "OutputBase>;\n\n  interface " ++ tool_name ++ "OutputBase \x7b\n" ++
            output_content ++ "\n  \x7d"
        else
          "  interface " ++ tool_name ++ "Output \x7b\n" ++ output_content ++
            "\n  \x7d"
      let interface_content :=
        "namespace " ++ sanitized_manual ++ " \x7b\n  interface " ++ tool_name ++
          "Input \x7b\n" ++ input_content ++ "\n  \x7d\n\n" ++ output_interface ++
          "\n\x7d"
      (interface_content, access_pattern)
    else
      let sanitized_tool := sanitize_identifier tool.name
      let access_pattern := sanitized_tool
      let input_type := json_schema_to_typescript tool.inputs (sanitized_tool ++ "Input")
      let output_type_name :=
        if tool.is_async then sanitized_tool ++ "OutputBase"
        else sanitized_tool ++ "Output"
      let output_type := json_schema_to_typescript tool.outputs output_type_name
      let output_type :=
        if tool.is_async then
          output_type ++ "\n\ntype " ++ sanitized_tool ++ "Output = Promise<" ++
            sanitized_tool ++ "OutputBase>;"
        else output_type
      (input_type ++ "\n\n" ++ output_type, access_pattern)
  let access_comment :=
    if tool.is_async then "await " ++ content_access.2 else content_access.2
  content_access.1 ++ "\n\n/**\n * " ++ escape_comment tool.description ++
    "\n * Tags: " ++ escape_comment (String.intercalate ", " tool.tags) ++
    "\n * Access as: " ++ access_comment ++ "(args)\n */"

/-- The `ToolInterfaceCache` (`ts_interface.rs` lines 10–30): the `RwLock`
interior mutability is modelled by passing the map explicitly. -/
abbrev InterfaceCache : Type := List (String × String)

/-- Model of `ToolInterfaceCache::get`. -/
def cache_get (c : InterfaceCache) (tool_name : String) : Option String :=
  alookup c tool_name

/-- Model of `ToolInterfaceCache::insert`. -/
def cache_insert (c : InterfaceCache) (tool_name : String)
    (interface : String) : InterfaceCache :=
  mapInsert c tool_name interface

/-- Model of `tool_to_typescript_interface` (`ts_interface.rs` lines
45–126): on a cache hit for the descriptor name the cached text is returned
unchanged; on a miss the text is generated from the descriptor and inserted
under the name. -/
def tool_to_typescript_interface (c : InterfaceCache) (tool : Tool) :
    String × InterfaceCache :=
  match cache_get c tool.name with
  | some interface => (interface, c)
  | none =>
      let interface_string := interfaceText tool
      (interface_string, cache_insert c tool.name interface_string)

/-! ## Round-trip lemmas (claim C9) -/

theorem log2fuel_le (fuel : Nat) : ∀ (n k : Nat), n < 2 ^ (k + 1) →
    log2fuel fuel n ≤ k := by
  induction fuel with
  | zero => intro n k h; exact Nat.zero_le k
  | succ fuel ih =>
      intro n k h
      rw [log2fuel]
      by_cases h2 : 2 ≤ n
      · rw [if_pos h2]
        cases k with
        | zero =>
            rw [pow_one] at h
            omega
        | succ k =>
            have hdiv : n / 2 < 2 ^ (k + 1) := by
              apply Nat.div_lt_of_lt_mul
              rw [Nat.mul_comm, ← pow_succ]
              exact h
            have := ih (n / 2) k hdiv
            omega
      · rw [if_neg h2]
        exact Nat.zero_le k

theorem natLog2_le_53 (n : Nat) (h : n ≤ 2 ^ 53) : natLog2 n ≤ 53 := by
  apply log2fuel_le
  calc n ≤ 2 ^ 53 := h
    _ < 2 ^ 54 := by norm_num

theorem v8ShortestDec_small (n : Nat) (h : n ≤ 2 ^ 53) : v8ShortestDec n = n := by
  rw [v8ShortestDec, if_pos (natLog2_le_53 n h)]

theorem v8NumToSerde_roundB64 (n : JNum) (h : n.exact = true) :
    v8NumToSerde (roundB64 n.toInt) = n := by
  have hlt : (2 : Nat) ^ 53 < 10 ^ 21 := by norm_num
  cases n with
  | u m =>
      rw [JNum.exact, decide_eq_true_eq] at h
      have hz : roundB64 (JNum.toInt (.u m)) = (m : Int) := by
        rw [JNum.toInt, roundB64, if_neg (by omega), Int.natAbs_ofNat,
          roundB64mag, if_pos h]
      rw [hz, v8NumToSerde, if_pos (by rw [Int.natAbs_ofNat]; omega)]
      rw [shortestIntDec, if_neg (by omega), Int.natAbs_ofNat, v8ShortestDec_small m h]
      rw [serdeNumOfInt, if_pos (by constructor <;> omega)]
      simp
  | i z =>
      rw [JNum.exact, Bool.and_eq_true, decide_eq_true_eq, decide_eq_true_eq] at h
      obtain ⟨h1, h2⟩ := h
      have habs : z.natAbs ≤ 2 ^ 53 := by omega
      have hz : roundB64 (JNum.toInt (.i z)) = z := by
        rw [JNum.toInt, roundB64, if_pos h1, roundB64mag, if_pos habs]
        omega
      rw [hz, v8NumToSerde, if_pos (by omega)]
      rw [shortestIntDec, if_pos h1, v8ShortestDec_small z.natAbs habs,
        show -(z.natAbs : Int) = z from by omega]
      rw [serdeNumOfInt, if_neg (by omega), if_pos (by constructor <;> omega)]
  | d z =>
      rw [JNum.exact] at h
      exact absurd h (by simp)

theorem isUndef_jsonToV8core (v : Json) : (jsonToV8core v).isUndef = false := by
  cases v <;> rfl

mutual
theorem v8_roundtrip_core : ∀ j : Json, j.numsExact = true →
    v8ToJsonCore (jsonToV8core j) = j
  | .null, _ => rfl
  | .bool _, _ => rfl
  | .num n, h => by
      rw [jsonToV8core, v8ToJsonCore, v8NumToSerde_roundB64 n (by rwa [Json.numsExact] at h)]
  | .str _, _ => rfl
  | .arr xs, h => by
      rw [jsonToV8core, v8ToJsonCore, v8_roundtrip_list xs (by rwa [Json.numsExact] at h)]
  | .obj m, h => by
      rw [jsonToV8core, v8ToJsonCore, v8_roundtrip_fields m (by rwa [Json.numsExact] at h)]

theorem v8_roundtrip_list : ∀ l : JsonList, l.numsExact = true →
    v8ListToJson (jsonListToV8 l) = l
  | .nil, _ => rfl
  | .cons x xs, h => by
      rw [JsonList.numsExact, Bool.and_eq_true] at h
      rw [jsonListToV8, v8ListToJson, v8_roundtrip_core x h.1, v8_roundtrip_list xs h.2]

theorem v8_roundtrip_fields : ∀ m : JsonFields, m.numsExact = true →
    v8FieldsToJson (jsonFieldsToV8 m) = m
  | .nil, _ => rfl
  | .cons k v m, h => by
      rw [JsonFields.numsExact, Bool.and_eq_true] at h
      rw [jsonFieldsToV8, v8FieldsToJson, isUndef_jsonToV8core]
      rw [if_neg (by simp), v8_roundtrip_core v h.1, v8_roundtrip_fields m h.2]
end

/-- C9, counterexample: the claim says the round trip `JSON → engine → JSON`
is the identity for every serialisable JSON value.  It is not: the
serialisable value `u64::MAX = 18446744073709551615` is not representable in
binary64, so the engine holds the rounded double `2 ^ 64`; the engine
stringifies that double as its shortest round-tripping decimal
`18446744073709552000`, which does not fit a u64 and serde reparses it as
the float of value `18446744073709551616` — a different number under serde
equality. -/
theorem round_trip_not_identity_u64max :
    json_round_trip (Json.num (.u 18446744073709551615)) ≠
        some (Json.num (.u 18446744073709551615)) ∧
    json_round_trip (Json.num (.u 18446744073709551615)) =
        some (Json.num (.d 18446744073709551616)) := by
  exact ⟨by decide, by decide⟩

/-- C9 (amended): the round trip of marshalling a JSON value into an engine
value (`json_to_v8`) and marshalling that engine value back
(`v8_value_to_json`) is the identity for every JSON value whose numbers are
all integer representations (u64, or negative i64) of magnitude at most
`2 ^ 53` — the range in which the value survives binary64 rounding and is
itself the shortest round-tripping decimal the engine stringifier prints.
A sync tool returning such a value has it structurally preserved
end-to-end; a number outside this fragment can come back changed — rounded
to its double, or replaced by the shortest decimal of that double, or under
a different serde number representation. -/
theorem round_trip_identity_exact (v : Json) (h : v.numsExact = true) :
    json_round_trip v = some v := by
  cases v with
  | null => rfl
  | bool b => rfl
  | str s => rfl
  | num n =>
      show some (Json.num (v8NumToSerde (roundB64 n.toInt))) = _
      rw [v8NumToSerde_roundB64 n (by rwa [Json.numsExact] at h)]
  | arr xs =>
      show some (Json.arr (v8ListToJson (jsonListToV8 xs))) = _
      rw [v8_roundtrip_list xs (by rwa [Json.numsExact] at h)]
  | obj m =>
      show some (Json.obj (v8FieldsToJson (jsonFieldsToV8 m))) = _
      rw [v8_roundtrip_fields m (by rwa [Json.numsExact] at h)]

/-! ## Identifier sanitisation (claim C7) -/

theorem sanitizeGo_succ (cs : List Char) : ∀ i : Nat,
    sanitizeGo (i + 1) cs = cs.map replChar := by
  induction cs with
  | nil => intro i; rfl
  | cons c cs ih =>
      intro i
      rw [sanitizeGo, ih]
      by_cases hc : (c.isAlphanum || c = '_') = true
      · rw [if_pos hc]
        have hz : ((i + 1 : Nat) == 0 && c.isDigit) = false := by simp
        rw [hz]
        simp [replChar, hc]
      · rw [if_neg hc]
        simp only [List.map_cons, List.singleton_append, replChar]
        rw [if_neg hc]

theorem sanitize_identifier_eq_spec (s : String) :
    sanitize_identifier s = sanitize_spec s := by
  obtain ⟨data⟩ := s
  cases data with
  | nil => rfl
  | cons c cs =>
      by_cases hd : c.isDigit = true
      · have hal : (c.isAlphanum || c = '_') = true := by
          simp [Char.isAlphanum, hd]
        simp [sanitize_identifier, sanitize_spec, sanitizeGo, sanitizeGo_succ, hal, hd,
          replChar]
      · by_cases hal : (c.isAlphanum || c = '_') = true
        · simp [sanitize_identifier, sanitize_spec, sanitizeGo, sanitizeGo_succ, hal, hd,
            replChar]
        · simp [sanitize_identifier, sanitize_spec, sanitizeGo, sanitizeGo_succ, hal, hd,
            replChar]

/-- C7: identifier sanitisation maps every character outside `[A-Za-z0-9_]`
to an underscore, puts an underscore in front of a leading ASCII digit, and
sends the empty string to a single underscore — stated as the pointwise
agreement of the implementation with the sanitisation the spec describes
(`sanitize_spec`); and in particular the tool named `1weird-name` gets the
access path `_1weird_name`. -/
theorem sanitize_identifier_matches_spec :
    (∀ s : String, sanitize_identifier s = sanitize_spec s) ∧
    sanitize_identifier "" = "_" ∧
    tool_access_path ⟨"1weird-name", "", [], .null, .null, true⟩ = "_1weird_name" :=
  ⟨sanitize_identifier_eq_spec, by decide, by decide⟩

/-! ## The interface cache (claim C10) -/

/-- C10: the interface-text cache is keyed by the descriptor name alone.
For two descriptors with the same name — whatever their other fields — a
first call generates and returns the text of the first descriptor, and a
second call on the resulting generator state returns that same text,
leaving the cache unchanged: the second descriptor contents are ignored on
the cache hit. -/
theorem interface_cache_keyed_by_name (c0 : InterfaceCache) (t1 t2 : Tool)
    (hname : t2.name = t1.name) (hmiss : cache_get c0 t1.name = none) :
    (tool_to_typescript_interface c0 t1).1 = interfaceText t1 ∧
    (tool_to_typescript_interface (tool_to_typescript_interface c0 t1).2 t2).1 =
      interfaceText t1 ∧
    (tool_to_typescript_interface (tool_to_typescript_interface c0 t1).2 t2).2 =
      (tool_to_typescript_interface c0 t1).2 := by
  have h1 : tool_to_typescript_interface c0 t1 =
      (interfaceText t1, cache_insert c0 t1.name (interfaceText t1)) := by
    rw [tool_to_typescript_interface, hmiss]
  have h2 : cache_get (cache_insert c0 t1.name (interfaceText t1)) t2.name =
      some (interfaceText t1) := by
    rw [hname]
    simp [cache_get, cache_insert, mapInsert, alookup]
  refine ⟨by rw [h1], ?_, ?_⟩ <;>
    rw [h1, tool_to_typescript_interface, h2]

/-- Witness for `interface_cache_keyed_by_name`: two descriptors sharing the
name `a` but with different descriptions; the second call returns the text
generated for the first (even though the texts the two descriptors would
generate differ). -/
theorem interface_cache_keyed_by_name_witness :
    cache_get ([] : InterfaceCache) "a" = none ∧
    (tool_to_typescript_interface [] ⟨"a", "first", [], .null, .null, false⟩).1 =
      interfaceText ⟨"a", "first", [], .null, .null, false⟩ ∧
    (tool_to_typescript_interface
        (tool_to_typescript_interface [] ⟨"a", "first", [], .null, .null, false⟩).2
        ⟨"a", "second", [], .null, .null, false⟩).1 =
      interfaceText ⟨"a", "first", [], .null, .null, false⟩ ∧
    interfaceText ⟨"a", "second", [], .null, .null, false⟩ ≠
      interfaceText ⟨"a", "first", [], .null, .null, false⟩ :=
  ⟨rfl,
   (interface_cache_keyed_by_name [] ⟨"a", "first", [], .null, .null, false⟩
     ⟨"a", "second", [], .null, .null, false⟩ rfl rfl).1,
   (interface_cache_keyed_by_name [] ⟨"a", "first", [], .null, .null, false⟩
     ⟨"a", "second", [], .null, .null, false⟩ rfl rfl).2.1,
   by decide⟩

/-! ## Stub argument handling (claim C3) -/

/-- C3, counterexample: the claim says every invocation on which the
stringify-then-parse pipeline fails dispatches JSON `null`.  When the
engine stringifier itself fails (`v8::json::stringify` returns nothing),
the pipeline has failed, yet the fallback text `"{}"` parses successfully
and the dispatched argument is the empty JSON object, not `null`. -/
theorem stringify_failure_dispatches_empty_object :
    parsed_args none = Json.obj .nil ∧ Json.obj .nil ≠ Json.null :=
  ⟨by decide, by decide⟩

/-- C3 (amended): argument 0 is serialised by the engine stringifier and
parsed by serde; a stringifier failure falls back to the literal text
`"{}"` and therefore dispatches the empty JSON object, while a serde parse
failure of a stringified text dispatches JSON `null`, and a parse success
dispatches the parsed value. -/
theorem parsed_args_fallback (s : String) :
    parsed_args none = Json.obj .nil ∧
    (serde_from_str s = none → parsed_args (some s) = Json.null) ∧
    (∀ j, serde_from_str s = some j → parsed_args (some s) = j) := by
  refine ⟨by decide, ?_, ?_⟩
  · intro h
    rw [parsed_args]
    simp [h]
  · intro j h
    rw [parsed_args]
    simp [h]

/-- Witness for `parsed_args_fallback`: the unparsable text `nope`
dispatches `null`; the parsable text `3` dispatches the number 3. -/
theorem parsed_args_fallback_witness :
    serde_from_str "nope" = none ∧ parsed_args (some "nope") = Json.null ∧
    serde_from_str "3" = some (.num (.u 3)) ∧
    parsed_args (some "3") = Json.num (.u 3) :=
  ⟨by decide, (parsed_args_fallback "nope").2.1 (by decide), by decide,
   (parsed_args_fallback "3").2.2 _ (by decide)⟩

/-! ## The stub installer (claim C1) -/

theorem ensure_namespace_ok (h : Heap) (p : Nat) (name : String) :
    ∃ r, ensure_namespace h p name = .ok r := by
  rw [ensure_namespace]
  cases heapGetField h p name <;> exact ⟨_, rfl⟩

theorem walk_namespaces_ok (parts : List String) :
    ∀ (h : Heap) (t : Nat), ∃ r, walk_namespaces h t parts = .ok r := by
  induction parts with
  | nil => intro h t; exact ⟨(h, t), rfl⟩
  | cons part rest ih =>
      intro h t
      obtain ⟨r, hr⟩ := ensure_namespace_ok h t part
      obtain ⟨r2, hr2⟩ := ih r.1 r.2
      exact ⟨r2, by rw [walk_namespaces, hr]; exact hr2⟩

/-- C1, counterexample: the claim says that walking an access path through
an existing binding that is not an object fails with an install error.  It
does not: with the global object binding `x` to a primitive,
`ensure_namespace` succeeds, silently overwriting the binding with a fresh
namespace object. -/
theorem ensure_namespace_non_object_overwrites :
    ensure_namespace [⟨[("x", JsVal.prim)], none⟩] 0 "x" =
      .ok ([⟨[("x", JsVal.ref 1)], none⟩, HeapObj.empty], 1) := rfl

/-- C1 (amended): during stub installation, walking a dotted access path
never fails.  For each intermediate segment: an existing object binding is
descended into (heap unchanged); an unbound key or an existing non-object
binding both get a fresh object allocated and bound at the key — a
non-object binding is silently overwritten rather than raising an install
error; and the per-tool installation as a whole always succeeds. -/
theorem ensure_namespace_characterization (h : Heap) (p : Nat) (name : String) :
    (∀ a, heapGetField h p name = .ref a → ensure_namespace h p name = .ok (h, a)) ∧
    ((heapGetField h p name).is_object = false →
      ensure_namespace h p name =
        .ok (heapSetField (h ++ [HeapObj.empty]) p name (.ref h.length), h.length)) ∧
    (∀ (g : Nat) (tool : Tool) (callers : CallersMap),
      ∃ r, inject_tool h g tool callers = .ok r) := by
  refine ⟨?_, ?_, ?_⟩
  · intro a ha
    rw [ensure_namespace, ha]
  · intro hno
    rw [ensure_namespace]
    cases hval : heapGetField h p name with
    | ref a => rw [hval] at hno; simp [JsVal.is_object] at hno
    | undefined => rfl
    | prim => rfl
  · intro g tool callers
    obtain ⟨r, hr⟩ :=
      walk_namespaces_ok (splitOnChar '.' (tool_access_path tool)).dropLast h g
    exact ⟨_, by rw [inject_tool, hr]⟩

/-- Witness for `ensure_namespace_characterization`, on a concrete heap with
`global.ns` bound to an object: the walk descends into it; an unbound key
gets a fresh object; and installing a dotted tool succeeds. -/
theorem ensure_namespace_characterization_witness :
    heapGetField [⟨[("ns", JsVal.ref 1)], none⟩, HeapObj.empty] 0 "ns" = .ref 1 ∧
    ensure_namespace [⟨[("ns", JsVal.ref 1)], none⟩, HeapObj.empty] 0 "ns" =
      .ok ([⟨[("ns", JsVal.ref 1)], none⟩, HeapObj.empty], 1) ∧
    (heapGetField [⟨[("ns", JsVal.ref 1)], none⟩, HeapObj.empty] 0 "zz").is_object
      = false ∧
    ensure_namespace [⟨[("ns", JsVal.ref 1)], none⟩, HeapObj.empty] 0 "zz" =
      .ok (heapSetField ([⟨[("ns", JsVal.ref 1)], none⟩, HeapObj.empty]
        ++ [HeapObj.empty]) 0 "zz" (.ref 2), 2) ∧
    (∃ r, inject_tool [⟨[("ns", JsVal.ref 1)], none⟩, HeapObj.empty] 0
      ⟨"ns.leaf", "", [], .null, .null, true⟩ [] = .ok r) :=
  ⟨by decide,
   (ensure_namespace_characterization [⟨[("ns", JsVal.ref 1)], none⟩, HeapObj.empty]
     0 "ns").1 1 (by decide),
   by decide,
   (ensure_namespace_characterization [⟨[("ns", JsVal.ref 1)], none⟩, HeapObj.empty]
     0 "zz").2.1 (by decide),
   (ensure_namespace_characterization [⟨[("ns", JsVal.ref 1)], none⟩, HeapObj.empty]
     0 "zz").2.2 0 ⟨"ns.leaf", "", [], .null, .null, true⟩ []⟩

/-! ## The shared bridge state (claims C2, C4, C5) -/

theorem nlookup_eq_none_of_not_mem (l : List (Nat × Nat)) (k : Nat)
    (h : k ∉ l.map Prod.fst) : nlookup l k = none := by
  induction l with
  | nil => rfl
  | cons p rest ih =>
      obtain ⟨a, b⟩ := p
      simp only [List.map_cons, List.mem_cons, not_or] at h
      rw [nlookup, if_neg (fun he => h.1 he.symm)]
      exact ih h.2

theorem nlookup_mem (l : List (Nat × Nat)) (k v : Nat)
    (h : nlookup l k = some v) : (k, v) ∈ l := by
  induction l with
  | nil => cases h
  | cons p rest ih =>
      obtain ⟨a, b⟩ := p
      rw [nlookup] at h
      by_cases hak : a = k
      · rw [if_pos hak] at h
        obtain rfl := Option.some.inj h
        exact hak ▸ List.mem_cons_self _ _
      · rw [if_neg hak] at h
        exact List.mem_cons_of_mem _ (ih h)

theorem removeKey_fst (l : List (Nat × Nat)) (k : Nat) :
    (removeKey l k).1 = nlookup l k := by
  induction l with
  | nil => rfl
  | cons p rest ih =>
      obtain ⟨a, b⟩ := p
      rw [removeKey, nlookup]
      by_cases hak : a = k
      · rw [if_pos hak, if_pos hak]
      · rw [if_neg hak, if_neg hak]
        exact ih

theorem removeKey_none_snd (l : List (Nat × Nat)) (k : Nat)
    (h : nlookup l k = none) : (removeKey l k).2 = l := by
  induction l with
  | nil => rfl
  | cons p rest ih =>
      obtain ⟨a, b⟩ := p
      rw [nlookup] at h
      by_cases hak : a = k
      · rw [if_pos hak] at h; cases h
      · rw [if_neg hak] at h
        rw [removeKey, if_neg hak]
        simp only
        rw [ih h]

theorem removeKey_some_props (l : List (Nat × Nat)) (k : Nat) (v : Nat)
    (hnodup : (l.map Prod.fst).Nodup) (h : nlookup l k = some v) :
    ((removeKey l k).2.map Prod.fst).Nodup ∧
    nlookup (removeKey l k).2 k = none ∧
    (∀ k2, k2 ≠ k → nlookup (removeKey l k).2 k2 = nlookup l k2) ∧
    (removeKey l k).2.length + 1 = l.length ∧
    (∀ p ∈ (removeKey l k).2, p ∈ l) := by
  induction l with
  | nil => cases h
  | cons p rest ih =>
      obtain ⟨a, b⟩ := p
      simp only [List.map_cons, List.nodup_cons] at hnodup
      rw [nlookup] at h
      by_cases hak : a = k
      · rw [if_pos hak] at h
        rw [removeKey, if_pos hak]
        refine ⟨hnodup.2, ?_, ?_, rfl, fun p hp => List.mem_cons_of_mem _ hp⟩
        · exact nlookup_eq_none_of_not_mem _ _ (hak ▸ hnodup.1)
        · intro k2 hk2
          rw [nlookup, if_neg (fun he => hk2 (he.symm.trans hak))]
      · rw [if_neg hak] at h
        rw [removeKey, if_neg hak]
        obtain ⟨ihnd, ihlk, ihpres, ihlen, ihmem⟩ := ih hnodup.2 h
        simp only
        refine ⟨?_, ?_, ?_, ?_, ?_⟩
        · rw [List.map_cons, List.nodup_cons]
          exact ⟨fun hmem => hnodup.1 (by
            obtain ⟨p, hp, hpe⟩ := List.mem_map.mp hmem
            exact List.mem_map.mpr ⟨p, ihmem p hp, hpe⟩), ihnd⟩
        · rw [nlookup, if_neg hak]
          exact ihlk
        · intro k2 hk2
          rw [nlookup, nlookup]
          by_cases hak2 : a = k2
          · rw [if_pos hak2, if_pos hak2]
          · rw [if_neg hak2, if_neg hak2]
            exact ihpres k2 hk2
        · simp only [List.length_cons]
          omega
        · intro p hp
          rcases List.mem_cons.mp hp with rfl | hp2
          · exact List.mem_cons_self _ _
          · exact List.mem_cons_of_mem _ (ihmem p hp2)

theorem settleCount_append (acts acts2 : List Action) (id : Nat) :
    settleCount (acts ++ acts2) id = settleCount acts id + settleCount acts2 id := by
  simp [settleCount, List.countP_append]

theorem settleCount_single (a : Action) (id : Nat) :
    settleCount [a] id = if a.cid = id then 1 else 0 := by
  by_cases hc : a.cid = id <;>
    simp [settleCount, List.countP_cons, hc]

theorem bridge_inv_init : BridgeInv .init [] := by
  refine ⟨List.nodup_nil, ?_, le_refl 1, rfl, rfl, ?_⟩
  · intro p hp; cases hp
  · intro id
    rw [if_neg]
    · rfl
    · rintro ⟨h1, h2, -⟩
      have h3 : AsyncSharedState.init.next_id = 1 := rfl
      rw [h3] at h2
      omega

theorem bridge_inv_call (s : AsyncSharedState) (acts : List Action) (r : Nat)
    (hinv : BridgeInv s acts) : BridgeInv (tool_call_register s r).1 acts := by
  obtain ⟨nd, bd, ol, pe, ce, st⟩ := hinv
  rw [tool_call_register]
  dsimp only
  refine ⟨?_, ?_, ?_, ?_, ?_, ?_⟩
  · rw [List.map_cons, List.nodup_cons]
    exact ⟨fun hmem => by
      obtain ⟨p, hp, hpe⟩ := List.mem_map.mp hmem
      exact absurd hpe (Nat.ne_of_lt (bd p hp).2), nd⟩
  · intro p hp
    rcases List.mem_cons.mp hp with rfl | hp2
    · exact ⟨ol, Nat.lt_succ_self _⟩
    · exact ⟨(bd p hp2).1, Nat.lt_succ_of_lt (bd p hp2).2⟩
  · exact Nat.le_succ_of_le ol
  · simp [pe]
  · simp only [List.length_cons]
    omega
  · intro id
    dsimp only
    rw [st id]
    by_cases hid : id = s.next_id
    · subst hid
      rw [if_neg (by rintro ⟨-, h2, -⟩; omega),
        if_neg (by rintro ⟨-, -, h3⟩; rw [nlookup, if_pos rfl] at h3; cases h3)]
    · have hlk : nlookup ((s.next_id, r) :: s.resolvers) id = nlookup s.resolvers id := by
        rw [nlookup, if_neg (fun he => hid he.symm)]
      exact if_congr ⟨fun ⟨h1, h2, h3⟩ => ⟨h1, Nat.lt_succ_of_lt h2, by rw [hlk]; exact h3⟩,
        fun ⟨h1, h2, h3⟩ => ⟨h1, by omega, by rw [hlk] at h3; exact h3⟩⟩ rfl rfl

theorem bridge_inv_after_remove (s : AsyncSharedState) (acts : List Action)
    (id0 v : Nat) (a : Action) (hcid : a.cid = id0) (hinv : BridgeInv s acts)
    (hlk : nlookup s.resolvers id0 = some v) :
    BridgeInv ⟨s.next_id, s.pending - 1, (removeKey s.resolvers id0).2⟩
      (acts ++ [a]) := by
  obtain ⟨nd, bd, ol, pe, ce, st⟩ := hinv
  obtain ⟨pnd, plk, ppres, plen, pmem⟩ := removeKey_some_props s.resolvers id0 v nd hlk
  have hmem0 : (id0, v) ∈ s.resolvers := nlookup_mem _ _ _ hlk
  have hbd0 := bd _ hmem0
  refine ⟨pnd, fun p hp => bd p (pmem p hp), ol, ?_, ?_, ?_⟩
  · simp only
    omega
  · simp only [List.length_append, List.length_singleton]
    omega
  · intro id
    rw [settleCount_append, settleCount_single, st id, hcid]
    by_cases hid : id0 = id
    · subst hid
      rw [if_pos rfl, if_neg (by rintro ⟨-, -, h3⟩; rw [hlk] at h3; cases h3),
        if_pos ⟨hbd0.1, hbd0.2, plk⟩]
    · rw [if_neg hid, Nat.add_zero]
      exact if_congr (by rw [ppres id (fun he => hid he.symm)]) rfl rfl

theorem bridge_inv_complete (marshal : Json → Option V8Value)
    (s : AsyncSharedState) (acts : List Action) (c : Completion)
    (hinv : BridgeInv s acts) :
    BridgeInv (apply_completion marshal s c).1
      (acts ++ (apply_completion marshal s c).2) := by
  rw [apply_completion]
  cases hlk : nlookup s.resolvers c.id with
  | none =>
      have hfst : (removeKey s.resolvers c.id).1 = none := by
        rw [removeKey_fst, hlk]
      have hsnd := removeKey_none_snd _ _ hlk
      rw [show removeKey s.resolvers c.id = (none, s.resolvers) from
        Prod.ext hfst hsnd]
      simpa using hinv
  | some v =>
      have hfst : (removeKey s.resolvers c.id).1 = some v := by
        rw [removeKey_fst, hlk]
      rw [show removeKey s.resolvers c.id = (some v, (removeKey s.resolvers c.id).2) from
        Prod.ext hfst rfl]
      dsimp only
      cases c.result with
      | ok value =>
          dsimp only
          cases marshal value with
          | some ev =>
              exact bridge_inv_after_remove s acts c.id v
                (.resolve c.id v ev) rfl hinv hlk
          | none =>
              exact bridge_inv_after_remove s acts c.id v
                (.reject c.id v "failed to serialize tool result") rfl hinv hlk
      | err message =>
          dsimp only
          exact bridge_inv_after_remove s acts c.id v
            (.reject c.id v message) rfl hinv hlk

theorem bridge_run_from_inv (marshal : Json → Option V8Value) :
    ∀ (evs : List BridgeEv) (s : AsyncSharedState) (acts : List Action),
      BridgeInv s acts →
      BridgeInv (bridge_run_from marshal s acts evs).1
        (bridge_run_from marshal s acts evs).2 := by
  intro evs
  induction evs with
  | nil => intro s acts hinv; exact hinv
  | cons ev rest ih =>
      intro s acts hinv
      rw [bridge_run_from]
      cases ev with
      | call r =>
          exact ih _ _ (by simpa [bridge_step] using bridge_inv_call s acts r hinv)
      | complete c =>
          exact ih _ _ (by
            simpa [bridge_step] using bridge_inv_complete marshal s acts c hinv)

theorem bridge_run_inv (marshal : Json → Option V8Value) (evs : List BridgeEv) :
    BridgeInv (bridge_run marshal evs).1 (bridge_run marshal evs).2 :=
  bridge_run_from_inv marshal evs _ _ bridge_inv_init

theorem apply_completion_next_id (marshal : Json → Option V8Value)
    (s : AsyncSharedState) (c : Completion) :
    (apply_completion marshal s c).1.next_id = s.next_id := by
  rw [apply_completion]
  cases hrk : removeKey s.resolvers c.id with
  | mk fst snd =>
      cases fst with
      | none => rfl
      | some v =>
          dsimp only
          cases c.result with
          | ok value =>
              dsimp only
              cases marshal value <;> rfl
          | err message => rfl

theorem bridge_run_from_next_id (marshal : Json → Option V8Value) :
    ∀ (evs : List BridgeEv) (s : AsyncSharedState) (acts : List Action),
      (bridge_run_from marshal s acts evs).1.next_id = s.next_id + numCalls evs := by
  intro evs
  induction evs with
  | nil => intro s acts; simp [bridge_run_from, numCalls]
  | cons ev rest ih =>
      intro s acts
      rw [bridge_run_from]
      cases ev with
      | call r =>
          rw [ih]
          simp [bridge_step, tool_call_register, numCalls, List.countP_cons]
          omega
      | complete c =>
          rw [ih]
          simp [bridge_step, apply_completion_next_id, numCalls, List.countP_cons]

/-- C5: along any engine-thread run, exactly one of resolve or reject is
invoked on the resolver paired with each applied completion, and a call id
has been settled (exactly once) precisely when it was allocated by a stub
invocation and its resolver has been removed from `resolvers`; no resolver
is ever settled twice. -/
theorem resolver_settled_exactly_once (marshal : Json → Option V8Value)
    (evs : List BridgeEv) :
    (∀ id, settleCount (bridge_run marshal evs).2 id ≤ 1) ∧
    (∀ id, settleCount (bridge_run marshal evs).2 id = 1 ↔
      (1 ≤ id ∧ id < (bridge_run marshal evs).1.next_id ∧
        nlookup (bridge_run marshal evs).1.resolvers id = none)) := by
  have hinv := bridge_run_inv marshal evs
  constructor
  · intro id
    rw [hinv.settles id]
    split_ifs <;> omega
  · intro id
    rw [hinv.settles id]
    split_ifs with hc <;> simp [hc]

/-- C2, counterexample: the claim says that at every return of `execute`
the `resolvers` map is empty and `pending` is 0.  Not so: a script that
fires one async tool call whose completion never arrives makes the driver
loop return the timeout error while `resolvers` still holds the pending
resolver and `pending` is 1. -/
theorem execute_timeout_leaves_state_nonempty :
    resolve_value_loop json_to_v8 (fun _ => .pending) (fun k => 6 * k) (fun _ => []) 10
        3 0 (bridge_run json_to_v8 [.call 7]).1 [] =
      some (.err (.v8 "execution timeout"), (bridge_run json_to_v8 [.call 7]).1, []) ∧
    (bridge_run json_to_v8 [.call 7]).1.resolvers ≠ [] ∧
    (bridge_run json_to_v8 [.call 7]).1.pending ≠ 0 :=
  ⟨rfl, by decide, by decide⟩

/-- C2 (amended): at any point of an engine-thread run — in particular at
whatever point `execute` returns — `pending` equals the number of live
resolvers, and live resolvers plus applied settlements account exactly for
every issued async call.  Consequently `resolvers` is empty and
`pending = 0` exactly when every issued call has had its completion
applied; on a timeout (or other return) with outstanding calls the map is
nonempty. -/
theorem pending_matches_resolvers (marshal : Json → Option V8Value)
    (evs : List BridgeEv) :
    (bridge_run marshal evs).1.pending =
      (bridge_run marshal evs).1.resolvers.length ∧
    (bridge_run marshal evs).1.resolvers.length +
      (bridge_run marshal evs).2.length = numCalls evs ∧
    ((bridge_run marshal evs).2.length = numCalls evs →
      (bridge_run marshal evs).1.resolvers = [] ∧
      (bridge_run marshal evs).1.pending = 0) := by
  have hinv := bridge_run_inv marshal evs
  have hnid : (bridge_run marshal evs).1.next_id = 1 + numCalls evs := by
    have hrun := bridge_run_from_next_id marshal evs .init []
    rw [bridge_run]
    rw [hrun]
    rfl
  have hce := hinv.calls_eq
  refine ⟨hinv.pending_eq, by omega, ?_⟩
  intro hlen
  have hres : (bridge_run marshal evs).1.resolvers.length = 0 := by omega
  exact ⟨List.length_eq_zero.mp hres, by rw [hinv.pending_eq, hres]⟩

/-- Witness for `pending_matches_resolvers`: one call followed by its
completion; all settled, so the map is empty and `pending` is 0. -/
theorem pending_matches_resolvers_witness :
    (bridge_run json_to_v8 [.call 5, .complete ⟨1, .ok .null⟩]).2.length =
      numCalls [BridgeEv.call 5, .complete ⟨1, .ok .null⟩] ∧
    ((bridge_run json_to_v8 [.call 5, .complete ⟨1, .ok .null⟩]).1.resolvers = [] ∧
      (bridge_run json_to_v8 [.call 5, .complete ⟨1, .ok .null⟩]).1.pending = 0) :=
  ⟨by decide,
   (pending_matches_resolvers json_to_v8
     [.call 5, .complete ⟨1, .ok .null⟩]).2.2 (by decide)⟩

/-- C4: applying a completion looks up and removes the resolver stored
under `completion.id`; when none is present the completion is dropped
silently (state unchanged, nothing settled); otherwise the resolver map
loses exactly that entry, `pending` is decremented with saturation, and the
single settle action is: `resolve` with the marshalled value on `Ok`,
`reject` with "failed to serialize tool result" when marshalling fails, and
`reject` with the carried message on `Err`. -/
theorem apply_completion_spec (marshal : Json → Option V8Value)
    (s : AsyncSharedState) (c : Completion)
    (hnodup : (s.resolvers.map Prod.fst).Nodup) :
    (nlookup s.resolvers c.id = none → apply_completion marshal s c = (s, [])) ∧
    (∀ r, nlookup s.resolvers c.id = some r →
      (apply_completion marshal s c).1.next_id = s.next_id ∧
      nlookup (apply_completion marshal s c).1.resolvers c.id = none ∧
      (∀ id2, id2 ≠ c.id →
        nlookup (apply_completion marshal s c).1.resolvers id2 =
          nlookup s.resolvers id2) ∧
      (apply_completion marshal s c).1.pending = s.pending - 1 ∧
      (apply_completion marshal s c).2 =
        (match c.result with
         | .ok value =>
             match marshal value with
             | some ev => [Action.resolve c.id r ev]
             | none => [Action.reject c.id r "failed to serialize tool result"]
         | .err message => [Action.reject c.id r message])) := by
  constructor
  · intro hnone
    rw [apply_completion,
      show removeKey s.resolvers c.id = (none, s.resolvers) from
        Prod.ext (by rw [removeKey_fst, hnone]) (removeKey_none_snd _ _ hnone)]
  · intro r hr
    obtain ⟨pnd, plk, ppres, plen, pmem⟩ :=
      removeKey_some_props s.resolvers c.id r hnodup hr
    have happ : apply_completion marshal s c =
        (⟨s.next_id, s.pending - 1, (removeKey s.resolvers c.id).2⟩,
          (match c.result with
           | .ok value =>
               match marshal value with
               | some ev => [Action.resolve c.id r ev]
               | none => [Action.reject c.id r "failed to serialize tool result"]
           | .err message => [Action.reject c.id r message])) := by
      rw [apply_completion,
        show removeKey s.resolvers c.id = (some r, (removeKey s.resolvers c.id).2) from
          Prod.ext (by rw [removeKey_fst, hr]) rfl]
      dsimp only
      cases c.result with
      | ok value =>
          dsimp only
          cases marshal value <;> rfl
      | err message => rfl
    rw [happ]
    exact ⟨rfl, plk, fun id2 hid2 => ppres id2 hid2, rfl, rfl⟩

/-- Witness for `apply_completion_spec`: on a concrete state holding
resolver 9 under id 1, a completion for id 2 is dropped silently, and the
error completion for id 1 removes the resolver, decrements `pending` and
rejects with the message. -/
theorem apply_completion_spec_witness :
    ((([(1, 9)] : List (Nat × Nat)).map Prod.fst).Nodup ∧
      nlookup [(1, 9)] 2 = none ∧
      apply_completion json_to_v8 ⟨2, 1, [(1, 9)]⟩ ⟨2, .err "boom"⟩ =
        (⟨2, 1, [(1, 9)]⟩, [])) ∧
    (nlookup [(1, 9)] 1 = some 9 ∧
      nlookup (apply_completion json_to_v8 ⟨2, 1, [(1, 9)]⟩ ⟨1, .err "boom"⟩).1.resolvers
        1 = none ∧
      (apply_completion json_to_v8 ⟨2, 1, [(1, 9)]⟩ ⟨1, .err "boom"⟩).1.pending = 1 - 1 ∧
      (apply_completion json_to_v8 ⟨2, 1, [(1, 9)]⟩ ⟨1, .err "boom"⟩).2 =
        [Action.reject 1 9 "boom"]) :=
  ⟨⟨by decide, by decide,
    (apply_completion_spec json_to_v8 ⟨2, 1, [(1, 9)]⟩ ⟨2, .err "boom"⟩
      (by decide)).1 (by decide)⟩,
   ⟨by decide,
    ((apply_completion_spec json_to_v8 ⟨2, 1, [(1, 9)]⟩ ⟨1, .err "boom"⟩
      (by decide)).2 9 (by decide)).2.1,
    ((apply_completion_spec json_to_v8 ⟨2, 1, [(1, 9)]⟩ ⟨1, .err "boom"⟩
      (by decide)).2 9 (by decide)).2.2.2.1,
    ((apply_completion_spec json_to_v8 ⟨2, 1, [(1, 9)]⟩ ⟨1, .err "boom"⟩
      (by decide)).2 9 (by decide)).2.2.2.2⟩⟩

/-! ## The driver loop (claim C8) -/

theorem loop_reaches_timeout (marshal : Json → Option V8Value)
    (prom : Nat → PromiseSt) (elapsed : Nat → Nat)
    (arrivals : Nat → List Completion) (timeout_ms : Nat)
    (hprom : ∀ k, prom k = .pending) (n : Nat) (hn : timeout_ms < elapsed n) :
    ∀ (fuel j : Nat) (s : AsyncSharedState) (acts : List Action),
      j ≤ n → (∀ i, j ≤ i → i < n → elapsed i ≤ timeout_ms) → n - j < fuel →
      ∃ s2 acts2,
        resolve_value_loop marshal prom elapsed arrivals timeout_ms fuel j s acts =
          some (.err (.v8 "execution timeout"), s2, acts2) := by
  intro fuel
  induction fuel with
  | zero => intro j s acts hj hbelow hfuel; omega
  | succ fuel ih =>
      intro j s acts hj hbelow hfuel
      rw [resolve_value_loop, hprom j]
      dsimp only
      by_cases hto : timeout_ms < elapsed j
      · rw [if_pos hto]
        exact ⟨_, _, rfl⟩
      · rw [if_neg hto]
        have hjn : j ≠ n := fun he => hto (he ▸ hn)
        exact ih (j + 1) _ _ (by omega)
          (fun i h1 h2 => hbelow i (by omega) h2) (by omega)

/-- C8: for a run whose top-level promise never settles, the driver loop
terminates: at the first iteration `n` whose elapsed wall clock exceeds
`timeout_ms` (such an iteration exists because the clock is unbounded) the
loop returns the v8 error "execution timeout"; and under the model
assumption that consecutive timeout checks are at most one 5 ms poll
interval apart, the elapsed time at that return is at most
`timeout_ms + 5`. -/
theorem driver_loop_timeout (marshal : Json → Option V8Value)
    (prom : Nat → PromiseSt) (elapsed : Nat → Nat)
    (arrivals : Nat → List Completion) (timeout_ms : Nat)
    (s : AsyncSharedState) (acts : List Action)
    (hprom : ∀ k, prom k = .pending) (h0 : elapsed 0 = 0)
    (hstep : ∀ k, elapsed (k + 1) ≤ elapsed k + 5)
    (hex : ∃ k, timeout_ms < elapsed k) :
    ∃ n s2 acts2,
      resolve_value_loop marshal prom elapsed arrivals timeout_ms (n + 1) 0 s acts =
        some (.err (.v8 "execution timeout"), s2, acts2) ∧
      elapsed n ≤ timeout_ms + 5 := by
  have hn : timeout_ms < elapsed (Nat.find hex) := Nat.find_spec hex
  obtain ⟨s2, acts2, hrun⟩ := loop_reaches_timeout marshal prom elapsed arrivals
    timeout_ms hprom (Nat.find hex) hn (Nat.find hex + 1) 0 s acts
    (Nat.zero_le _)
    (fun i _ h2 => Nat.le_of_not_lt (Nat.find_min hex h2)) (by omega)
  refine ⟨Nat.find hex, s2, acts2, hrun, ?_⟩
  cases hfz : Nat.find hex with
  | zero =>
      rw [hfz, h0] at hn
      omega
  | succ m =>
      have hm : ¬(timeout_ms < elapsed m) := Nat.find_min hex (by omega)
      calc elapsed (m + 1) ≤ elapsed m + 5 := hstep m
        _ ≤ timeout_ms + 5 := by omega

/-- Witness for `driver_loop_timeout`: clock 5 ms per iteration, timeout
7 ms, no completions; the loop returns the timeout error with elapsed time
within one poll interval of the deadline. -/
theorem driver_loop_timeout_witness :
    (∀ k : Nat, (fun _ : Nat => PromiseSt.pending) k = PromiseSt.pending) ∧
    (∃ k, 7 < 5 * k) ∧
    (∃ n s2 acts2,
      resolve_value_loop json_to_v8 (fun _ => .pending) (fun k => 5 * k)
          (fun _ => []) 7 (n + 1) 0 .init [] =
        some (.err (.v8 "execution timeout"), s2, acts2) ∧
      5 * n ≤ 7 + 5) :=
  ⟨fun _ => rfl, ⟨2, by decide⟩,
   driver_loop_timeout json_to_v8 (fun _ => .pending) (fun k => 5 * k)
     (fun _ => []) 7 .init [] (fun _ => rfl) rfl
     (fun k => by show 5 * (k + 1) ≤ 5 * k + 5; omega) ⟨2, by decide⟩⟩

/-! ## Registration and raw-name dispatch (claim C6) -/

theorem applyPfx_inj (pfx a b : String) (h : applyPfx pfx a = applyPfx pfx b) :
    a = b := by
  have h2 := congrArg String.data h
  simp only [applyPfx, String.data_append, List.append_assoc] at h2
  exact String.ext (List.append_cancel_left (List.append_cancel_left h2))

theorem alookup_mapInsert {α : Type} (m : List (String × α)) (k : String) (v : α) :
    alookup (mapInsert m k v) k = some v := by
  rw [mapInsert, alookup, if_pos rfl]

theorem alookup_mapInsert_ne {α : Type} (m : List (String × α)) (k k2 : String)
    (v : α) (h : k ≠ k2) : alookup (mapInsert m k v) k2 = alookup m k2 := by
  rw [mapInsert, alookup, if_neg h]

theorem register_async_source_cons (m : CallersMap) (t1 : Tool) (rest : List Tool)
    (pfx : String) (pid : Nat) :
    register_async_source m (t1 :: rest) pfx pid =
      register_async_source
        (register_async_tool m { t1 with name := applyPfx pfx t1.name } t1.name pid)
        rest pfx pid := rfl

theorem register_sync_source_cons (m : CallersMap) (t1 : Tool) (rest : List Tool)
    (pfx : String) (pid : Nat) :
    register_sync_source m (t1 :: rest) pfx pid =
      register_sync_source
        (register_sync_tool m { t1 with name := applyPfx pfx t1.name } t1.name pid)
        rest pfx pid := rfl

theorem register_async_source_preserves (rest : List Tool) :
    ∀ (m : CallersMap) (pfx : String) (pid : Nat) (n : String) (e : ToolCallerEntry),
      alookup m (applyPfx pfx n) = some e → e.raw_name = n →
      e.tool.name = applyPfx pfx n → e.tool.is_async = true →
      ∃ e2, alookup (register_async_source m rest pfx pid) (applyPfx pfx n) = some e2 ∧
        e2.raw_name = n ∧ e2.tool.name = applyPfx pfx n ∧ e2.tool.is_async = true := by
  induction rest with
  | nil => intro m pfx pid n e h1 h2 h3 h4; exact ⟨e, h1, h2, h3, h4⟩
  | cons t1 rest ih =>
      intro m pfx pid n e h1 h2 h3 h4
      rw [register_async_source_cons]
      by_cases hk : applyPfx pfx t1.name = applyPfx pfx n
      · refine ih _ pfx pid n
          ⟨{ t1 with name := applyPfx pfx t1.name, is_async := true }, t1.name, .async pid⟩
          ?_ (applyPfx_inj pfx t1.name n hk) hk rfl
        rw [register_async_tool]
        rw [show applyPfx pfx n = applyPfx pfx t1.name from hk.symm]
        exact alookup_mapInsert m _ _
      · refine ih _ pfx pid n e ?_ h2 h3 h4
        rw [register_async_tool]
        rw [alookup_mapInsert_ne _ _ _ _ hk]
        exact h1

theorem register_sync_source_preserves (rest : List Tool) :
    ∀ (m : CallersMap) (pfx : String) (pid : Nat) (n : String) (e : ToolCallerEntry),
      alookup m (applyPfx pfx n) = some e → e.raw_name = n →
      e.tool.name = applyPfx pfx n → e.tool.is_async = false →
      ∃ e2, alookup (register_sync_source m rest pfx pid) (applyPfx pfx n) = some e2 ∧
        e2.raw_name = n ∧ e2.tool.name = applyPfx pfx n ∧ e2.tool.is_async = false := by
  induction rest with
  | nil => intro m pfx pid n e h1 h2 h3 h4; exact ⟨e, h1, h2, h3, h4⟩
  | cons t1 rest ih =>
      intro m pfx pid n e h1 h2 h3 h4
      rw [register_sync_source_cons]
      by_cases hk : applyPfx pfx t1.name = applyPfx pfx n
      · refine ih _ pfx pid n
          ⟨{ t1 with name := applyPfx pfx t1.name, is_async := false }, t1.name, .sync pid⟩
          ?_ (applyPfx_inj pfx t1.name n hk) hk rfl
        rw [register_sync_tool]
        rw [show applyPfx pfx n = applyPfx pfx t1.name from hk.symm]
        exact alookup_mapInsert m _ _
      · refine ih _ pfx pid n e ?_ h2 h3 h4
        rw [register_sync_tool]
        rw [alookup_mapInsert_ne _ _ _ _ hk]
        exact h1

theorem register_async_source_lookup (tools : List Tool) :
    ∀ (m : CallersMap) (pfx : String) (pid : Nat) (t : Tool), t ∈ tools →
      ∃ e, alookup (register_async_source m tools pfx pid) (applyPfx pfx t.name) =
          some e ∧
        e.raw_name = t.name ∧ e.tool.name = applyPfx pfx t.name ∧
        e.tool.is_async = true := by
  induction tools with
  | nil => intro m pfx pid t ht; cases ht
  | cons t1 rest ih =>
      intro m pfx pid t ht
      rcases List.mem_cons.mp ht with rfl | hmem
      · rw [register_async_source_cons]
        refine register_async_source_preserves rest _ pfx pid t.name
          ⟨{ t with name := applyPfx pfx t.name, is_async := true }, t.name, .async pid⟩
          ?_ rfl rfl rfl
        rw [register_async_tool]
        exact alookup_mapInsert m _ _
      · rw [register_async_source_cons]
        exact ih _ pfx pid t hmem

theorem register_sync_source_lookup (tools : List Tool) :
    ∀ (m : CallersMap) (pfx : String) (pid : Nat) (t : Tool), t ∈ tools →
      ∃ e, alookup (register_sync_source m tools pfx pid) (applyPfx pfx t.name) =
          some e ∧
        e.raw_name = t.name ∧ e.tool.name = applyPfx pfx t.name ∧
        e.tool.is_async = false := by
  induction tools with
  | nil => intro m pfx pid t ht; cases ht
  | cons t1 rest ih =>
      intro m pfx pid t ht
      rcases List.mem_cons.mp ht with rfl | hmem
      · rw [register_sync_source_cons]
        refine register_sync_source_preserves rest _ pfx pid t.name
          ⟨{ t with name := applyPfx pfx t.name, is_async := false }, t.name, .sync pid⟩
          ?_ rfl rfl rfl
        rw [register_sync_tool]
        exact alookup_mapInsert m _ _
      · rw [register_sync_source_cons]
        exact ih _ pfx pid t hmem

theorem inject_tool_raw_name (h : Heap) (g : Nat) (tool : Tool)
    (callers : CallersMap) (e : ToolCallerEntry) (h2 : Heap)
    (st : ToolCallbackState) (he : alookup callers tool.name = some e)
    (hok : inject_tool h g tool callers = .ok (h2, st)) :
    st.raw_name = e.raw_name := by
  rw [inject_tool] at hok
  cases hw : walk_namespaces h g
      (splitOnChar '.' (tool_access_path tool)).dropLast with
  | error err =>
      rw [hw] at hok
      exact Except.noConfusion hok
  | ok r =>
      obtain ⟨hh, tt⟩ := r
      rw [hw] at hok
      dsimp only at hok
      rw [he] at hok
      have hst := (Prod.mk.inj (Except.ok.inj hok)).2
      rw [← hst]
      rfl

theorem tool_callback_dispatch_raw (st : ToolCallbackState) (args : Json)
    (out : String × Json) (hout : tool_callback_dispatch st args = some out) :
    out = (st.raw_name, args) := by
  rw [tool_callback_dispatch] at hout
  by_cases ha : st.is_async = true
  · rw [if_pos ha] at hout
    cases hsc : st.async_caller with
    | some p => rw [hsc] at hout; exact (Option.some.inj hout).symm
    | none => rw [hsc] at hout; exact Option.noConfusion hout
  · rw [if_neg ha] at hout
    cases hsc : st.sync_caller with
    | some p => rw [hsc] at hout; exact (Option.some.inj hout).symm
    | none => rw [hsc] at hout; exact Option.noConfusion hout

/-- C6: `register_async_source` / `register_sync_source` register each
listed descriptor under `prefix.originalName` while preserving the original
name as `raw_name` (and forcing the async flag to match the source kind);
and every dispatch a stub makes to a provider — async or sync — uses the
caller entry `raw_name` captured at installation, never the possibly
prefixed registered name. -/
theorem dispatch_uses_raw_name :
    (∀ (tools : List Tool) (m : CallersMap) (pfx : String) (pid : Nat) (t : Tool),
      t ∈ tools →
      ∃ e, alookup (register_async_source m tools pfx pid) (applyPfx pfx t.name) =
          some e ∧
        e.raw_name = t.name ∧ e.tool.name = applyPfx pfx t.name ∧
        e.tool.is_async = true) ∧
    (∀ (tools : List Tool) (m : CallersMap) (pfx : String) (pid : Nat) (t : Tool),
      t ∈ tools →
      ∃ e, alookup (register_sync_source m tools pfx pid) (applyPfx pfx t.name) =
          some e ∧
        e.raw_name = t.name ∧ e.tool.name = applyPfx pfx t.name ∧
        e.tool.is_async = false) ∧
    (∀ (h : Heap) (g : Nat) (tool : Tool) (callers : CallersMap)
      (e : ToolCallerEntry) (h2 : Heap) (st : ToolCallbackState) (args : Json)
      (out : String × Json),
      alookup callers tool.name = some e →
      inject_tool h g tool callers = .ok (h2, st) →
      tool_callback_dispatch st args = some out →
      out = (e.raw_name, args)) :=
  ⟨fun tools m pfx pid t ht => register_async_source_lookup tools m pfx pid t ht,
   fun tools m pfx pid t ht => register_sync_source_lookup tools m pfx pid t ht,
   fun h g tool callers e h2 st args out he hok hout =>
     (tool_callback_dispatch_raw st args out hout).trans
       (by rw [inject_tool_raw_name h g tool callers e h2 st he hok])⟩

/-- Witness for `dispatch_uses_raw_name`: registering the tool `echo` from
an async source under prefix `test` keys it as `test.echo` with
`raw_name = echo`; a sync source likewise; and the installed stub for a
registered `t.echo` dispatches under the raw name `echo`, not the
registered dotted name. -/
theorem dispatch_uses_raw_name_witness :
    ((⟨"echo", "", [], .null, .null, false⟩ : Tool) ∈
      [(⟨"echo", "", [], .null, .null, false⟩ : Tool)]) ∧
    (∃ e, alookup (register_async_source [] [⟨"echo", "", [], .null, .null, false⟩]
          "test" 3) (applyPfx "test" "echo") = some e ∧
        e.raw_name = "echo" ∧ e.tool.name = applyPfx "test" "echo" ∧
        e.tool.is_async = true) ∧
    (∃ e, alookup (register_sync_source [] [⟨"echo", "", [], .null, .null, true⟩]
          "test" 3) (applyPfx "test" "echo") = some e ∧
        e.raw_name = "echo" ∧ e.tool.name = applyPfx "test" "echo" ∧
        e.tool.is_async = false) ∧
    (alookup [("t.echo", (⟨⟨"t.echo", "", [], .null, .null, true⟩, "echo",
        .async 3⟩ : ToolCallerEntry))] "t.echo" =
      some ⟨⟨"t.echo", "", [], .null, .null, true⟩, "echo", .async 3⟩) ∧
    (inject_tool [HeapObj.empty] 0 ⟨"t.echo", "", [], .null, .null, true⟩
        [("t.echo", ⟨⟨"t.echo", "", [], .null, .null, true⟩, "echo", .async 3⟩)] =
      .ok ([⟨[("t", JsVal.ref 1)], none⟩, ⟨[("echo", JsVal.ref 2)], none⟩,
        ⟨[], some ⟨"t.echo", "echo", some 3, none, true⟩⟩],
        ⟨"t.echo", "echo", some 3, none, true⟩)) ∧
    (tool_callback_dispatch ⟨"t.echo", "echo", some 3, none, true⟩ .null =
      some ("echo", .null)) ∧
    (("echo", (Json.null : Json)) = (("echo" : String), (Json.null : Json))) :=
  ⟨by decide,
   dispatch_uses_raw_name.1 [⟨"echo", "", [], .null, .null, false⟩] [] "test" 3
     ⟨"echo", "", [], .null, .null, false⟩ (by decide),
   dispatch_uses_raw_name.2.1 [⟨"echo", "", [], .null, .null, true⟩] [] "test" 3
     ⟨"echo", "", [], .null, .null, true⟩ (by decide),
   by decide, rfl, rfl,
   dispatch_uses_raw_name.2.2 [HeapObj.empty] 0
     ⟨"t.echo", "", [], .null, .null, true⟩
     [("t.echo", ⟨⟨"t.echo", "", [], .null, .null, true⟩, "echo", .async 3⟩)]
     ⟨⟨"t.echo", "", [], .null, .null, true⟩, "echo", .async 3⟩
     [⟨[("t", JsVal.ref 1)], none⟩, ⟨[("echo", JsVal.ref 2)], none⟩,
       ⟨[], some ⟨"t.echo", "echo", some 3, none, true⟩⟩]
     ⟨"t.echo", "echo", some 3, none, true⟩ .null ("echo", .null)
     (by decide) rfl rfl⟩

/-- Witness for `round_trip_identity_exact`: a concrete nested value with
numbers, strings, arrays and objects round-trips to itself. -/
theorem round_trip_identity_exact_witness :
    (Json.obj (.cons "a" (.num (.u 42))
      (.cons "b" (.arr (.cons (.str "x") (.cons (.num (.i (-7))) (.cons .null .nil))))
        .nil))).numsExact = true ∧
    json_round_trip
        (Json.obj (.cons "a" (.num (.u 42))
          (.cons "b" (.arr (.cons (.str "x") (.cons (.num (.i (-7))) (.cons .null .nil))))
            .nil))) =
      some (Json.obj (.cons "a" (.num (.u 42))
        (.cons "b" (.arr (.cons (.str "x") (.cons (.num (.i (-7))) (.cons .null .nil))))
          .nil))) :=
  ⟨by decide, round_trip_identity_exact _ (by decide)⟩

end CodemodeRs
